import Mathlib

/-!
# mc_rtc-magnum: asset import cache, scene population, visibility cascade, arrows

A shallow embedding of

* `McRtcGui::importData`, `McRtcGui::loadMesh`, `McRtcGui::addObject` and
  `McRtcGui::drawArrow` (`src/McRtcGui.cpp`),
* `CommonDrawable::hidden` (`src/Primitives.cpp`),

followed by the properties proved about them.

Conventions.  C++ arrays are lists; an access `a[i]` is `arrayGet a i`, which
reports `Fault.outOfRange` when `i` is not a position of `a` (the source never
checks an index itself).  Recursion over the decoded node graph carries a fuel
argument: the source recursion does not terminate on a cyclic graph, which is
reported as `Fault.diverged`.  Mutable members are passed explicitly.
-/

namespace McRtc

/-! ## Values that are only carried around -/

/-- Magnum `Color4`; each channel is stored in units of 1/255. -/
structure Color4 where
  r : Nat
  g : Nat
  b : Nat
  a : Nat
deriving DecidableEq, Repr

/-- The literal `0xffffff_rgbf` converted to `Color4`: white, alpha one. -/
def white : Color4 := ⟨255, 255, 255, 255⟩

/-- A 4x4 transformation; the import pipeline only copies it. -/
abbrev Matrix4 := Nat

/-- Identifier of a `SceneGraph::DrawableGroup3D`. -/
abbrev GroupId := Nat

/-! ## Records produced by the decoding plugin (`Magnum::Trade`) -/

/-- `Trade::TextureData::Type`. -/
inductive TextureType where
  | Texture1D
  | Texture2D
  | Texture3D
  | Cube
deriving DecidableEq, Repr

/-- `Magnum::PixelFormat`; only two formats are told apart by the source. -/
inductive PixelFormat where
  | RGB8Unorm
  | RGBA8Unorm
  | other (code : Nat)
deriving DecidableEq, Repr

/-- `GL::TextureFormat`, the two values the source selects. -/
inductive TextureFormat where
  | RGB8
  | RGBA8
deriving DecidableEq, Repr

/-- `Trade::TextureData`: type, sampler settings and the image it refers to. -/
structure TextureData where
  type : TextureType
  magnificationFilter : Nat
  minificationFilter : Nat
  mipmapFilter : Nat
  wrapping : Nat × Nat
  image : Nat
deriving DecidableEq, Repr

/-- `Trade::ImageData2D`: pixel format and size (width, height). -/
structure ImageData2D where
  format : PixelFormat
  size : Nat × Nat
deriving DecidableEq, Repr

/-- `Trade::PhongMaterialData`: `diffuseTexture` is present exactly when the
material has the `DiffuseTexture` attribute. -/
structure PhongMaterialData where
  diffuseColor : Color4
  diffuseTexture : Option Nat
deriving DecidableEq, Repr

/-- `Trade::MaterialData`: `phong` is `types() & MaterialType::Phong`, and
`data` is what the cast to `PhongMaterialData` reads. -/
structure MaterialData where
  phong : Bool
  data : PhongMaterialData
deriving DecidableEq, Repr

/-- `Magnum::MeshPrimitive`. -/
inductive MeshPrimitive where
  | Points
  | Lines
  | LineLoop
  | LineStrip
  | Triangles
  | TriangleStrip
  | TriangleFan
deriving DecidableEq, Repr

/-- `Trade::MeshData`, as far as the source inspects it. -/
structure MeshData where
  key : Nat
  hasNormal : Bool
  primitive : MeshPrimitive
deriving DecidableEq, Repr

/-- `Trade::SceneData`: the root object ids (`children3D()`). -/
structure SceneData where
  children3D : List Nat
deriving DecidableEq, Repr

/-- `Trade::ObjectInstanceType3D`. -/
inductive ObjectInstanceType3D where
  | Camera
  | Light
  | Mesh
  | Empty
deriving DecidableEq, Repr

/-- `Trade::ObjectData3D` (with the `material()` of `MeshObjectData3D`);
`instanceId` is `instance()`, `-1` meaning none. -/
structure ObjectData3D where
  transformation : Matrix4
  instanceType : ObjectInstanceType3D
  instanceId : Int
  material : Int
  children : List Nat
deriving DecidableEq, Repr

/-! ## GPU handles and the cache entry -/

/-- `GL::Mesh` as returned by `MeshTools::compile`. -/
structure GLMesh where
  compiledFrom : MeshData
deriving DecidableEq, Repr

/-- `GL::Texture2D` as configured by `importData`. -/
structure Texture2D where
  magnificationFilter : Nat
  minificationFilter : Nat
  mipmapFilter : Nat
  wrapping : Nat × Nat
  levels : Nat
  format : TextureFormat
  size : Nat × Nat
  image : ImageData2D
deriving DecidableEq, Repr

/-- Modelled from the spec: the declaration of `McRtcGui::ImportedMesh` is in
`McRtcGui.h`, which is not among the sources.  The members are those
`importData` assigns, with the shape the specification gives the cached asset
(section 3): index-aligned arrays of optional textures, materials and meshes,
an optional scene, and the object array.  The default value is the
default-constructed entry `importedData_[path]` creates. -/
structure ImportedMesh where
  textures_ : List (Option Texture2D) := []
  materials_ : List (Option PhongMaterialData) := []
  meshes_ : List (Option GLMesh) := []
  scene_ : Option SceneData := none
  objects_ : List (Option ObjectData3D) := []
deriving DecidableEq, Repr

/-! ## The live scene -/

/-- The two drawable classes of `McRtcGui.cpp`; the last field is the group the
constructor registers the drawable in. -/
inductive Drawable where
  | ColoredDrawable (mesh : GLMesh) (color : Color4) (group : GroupId)
  | TexturedDrawable (mesh : GLMesh) (texture : Texture2D) (group : GroupId)
deriving DecidableEq, Repr

/-- `Object3D`: a transform node with its drawable features and child nodes. -/
inductive Object3D where
  | mk (transformation : Matrix4) (drawables : List Drawable) (children : List Object3D)
deriving Repr

/-- The drawables attached to this very node. -/
def Object3D.drawables : Object3D → List Drawable
  | .mk _ ds _ => ds

/-- The child transform nodes. -/
def Object3D.children : Object3D → List Object3D
  | .mk _ _ cs => cs

/-- The local transformation. -/
def Object3D.transformation : Object3D → Matrix4
  | .mk t _ _ => t

mutual
/-- Every drawable of a subtree, the node's own first. -/
def Object3D.allDrawables : Object3D → List Drawable
  | .mk _ ds cs => ds ++ Object3D.allDrawablesList cs
/-- Every drawable of a list of subtrees. -/
def Object3D.allDrawablesList : List Object3D → List Drawable
  | [] => []
  | c :: cs => Object3D.allDrawables c ++ Object3D.allDrawablesList cs
end

/-! ## Faults and array access -/

/-- What the embedding reports instead of undefined behaviour. -/
inductive Fault where
  | outOfRange
  | diverged
deriving DecidableEq, Repr

/-- Access `a[i]` with an unsigned index. -/
def arrayGet {α : Type} (a : List α) (i : Nat) : Except Fault α :=
  match a[i]? with
  | some x => .ok x
  | none => .error .outOfRange

/-- Access `a[i]` with a signed index: a negative one converts to a position
beyond any array. -/
def arrayGetInt {α : Type} (a : List α) (i : Int) : Except Fault α :=
  if i < 0 then .error .outOfRange else arrayGet a i.toNat

/-! ## `McRtcGui::addObject` and `McRtcGui::loadMesh` -/

/-- Lines 273-304 of `addObject`: the drawables attached to the new node. -/
def addObjectDrawables (data : ImportedMesh) (group : GroupId) (objectData : ObjectData3D) :
    Except Fault (List Drawable) :=
  if objectData.instanceType = .Mesh ∧ objectData.instanceId ≠ -1 then
    match arrayGetInt data.meshes_ objectData.instanceId with
    | .error e => .error e
    | .ok none => .ok []
    | .ok (some mesh) =>
      let materialId := objectData.material
      if materialId = -1 then
        .ok [.ColoredDrawable mesh white group]
      else
        match arrayGetInt data.materials_ materialId with
        | .error e => .error e
        | .ok none => .ok [.ColoredDrawable mesh white group]
        | .ok (some material) =>
          match material.diffuseTexture with
          | some t =>
            match arrayGet data.textures_ t with
            | .error e => .error e
            | .ok (some texture) => .ok [.TexturedDrawable mesh texture group]
            | .ok none => .ok [.ColoredDrawable mesh white group]
          | none => .ok [.ColoredDrawable mesh material.diffuseColor group]
  else
    .ok []

/-- A loop `for(id : ids) addObject(..., id)`: the nodes created, in order. -/
def addEach (add : Nat → Except Fault (Option Object3D)) : List Nat → Except Fault (List Object3D)
  | [] => .ok []
  | id :: ids =>
    match add id with
    | .error e => .error e
    | .ok o =>
      match addEach add ids with
      | .error e => .error e
      | .ok os => .ok (o.toList ++ os)

/-- `McRtcGui::addObject(data, parent, group, i)`: the node created under
`parent`, or `none` when the object pointer is null. -/
def addObject : Nat → ImportedMesh → GroupId → Nat → Except Fault (Option Object3D)
  | 0, _, _, _ => .error .diverged
  | fuel + 1, data, group, i =>
    match arrayGet data.objects_ i with
    | .error e => .error e
    | .ok none => .ok none
    | .ok (some objectData) =>
      match addObjectDrawables data group objectData with
      | .error e => .error e
      | .ok ds =>
        match addEach (addObject fuel data group) objectData.children with
        | .error e => .error e
        | .ok cs => .ok (some (.mk objectData.transformation ds cs))

/-- The body of `loadMesh` once `importData` has returned `data`: the parent
after the call.  `drawables_` is the application's own draw group. -/
def populate (fuel : Nat) (drawables_ : GroupId) (data : ImportedMesh) (parent : Object3D)
    (group : GroupId) : Except Fault Object3D :=
  match data.scene_ with
  | some scene =>
    match addEach (addObject fuel data group) scene.children3D with
    | .error e => .error e
    | .ok os => .ok (.mk parent.transformation parent.drawables (parent.children ++ os))
  | none =>
    match data.meshes_ with
    | some mesh :: _ =>
      .ok (.mk parent.transformation (parent.drawables ++ [.ColoredDrawable mesh white drawables_])
        parent.children)
    | _ => .ok parent

/-! ## The decoding plugin -/

/-- A decode request made to the importer plugin. -/
inductive ImporterCall where
  | openFile (path : String)
  | texture (i : Nat)
  | image2D (i : Nat)
  | material (i : Nat)
  | mesh (i : Nat)
  | scene (i : Nat)
  | object3D (i : Nat)
deriving DecidableEq, Repr

/-- What the plugin answers once a file is open. -/
structure FileData where
  textureCount : Nat
  texture : Nat → Option TextureData
  image2D : Nat → Option ImageData2D
  materialCount : Nat
  material : Nat → Option MaterialData
  meshCount : Nat
  mesh : Nat → Option MeshData
  defaultScene : Int
  scene : Nat → Option SceneData
  object3DCount : Nat
  object3D : Nat → Option ObjectData3D

/-- The importer plugin `importer_`: `disk` is what `openFile` finds for each
path (`none`: the file cannot be opened), `opened` the file currently open, and
`calls` the record of the decode requests received so far. -/
structure AbstractImporter where
  disk : String → Option FileData
  opened : Option FileData
  calls : List ImporterCall

namespace AbstractImporter

/-- Record one request. -/
def request (imp : AbstractImporter) (c : ImporterCall) : AbstractImporter :=
  { imp with calls := imp.calls ++ [c] }

/-- `openFile(path)`. -/
def openFile (imp : AbstractImporter) (path : String) : Bool × AbstractImporter :=
  ((imp.disk path).isSome,
    { disk := imp.disk, opened := imp.disk path, calls := imp.calls ++ [.openFile path] })

/-- `textureCount()`. -/
def textureCount (imp : AbstractImporter) : Nat :=
  match imp.opened with
  | some f => f.textureCount
  | none => 0

/-- `materialCount()`. -/
def materialCount (imp : AbstractImporter) : Nat :=
  match imp.opened with
  | some f => f.materialCount
  | none => 0

/-- `meshCount()`. -/
def meshCount (imp : AbstractImporter) : Nat :=
  match imp.opened with
  | some f => f.meshCount
  | none => 0

/-- `object3DCount()`. -/
def object3DCount (imp : AbstractImporter) : Nat :=
  match imp.opened with
  | some f => f.object3DCount
  | none => 0

/-- `defaultScene()`. -/
def defaultScene (imp : AbstractImporter) : Int :=
  match imp.opened with
  | some f => f.defaultScene
  | none => -1

/-- `texture(i)`. -/
def texture (imp : AbstractImporter) (i : Nat) : Option TextureData × AbstractImporter :=
  (imp.opened.bind (fun f => f.texture i), imp.request (.texture i))

/-- `image2D(i)`. -/
def image2D (imp : AbstractImporter) (i : Nat) : Option ImageData2D × AbstractImporter :=
  (imp.opened.bind (fun f => f.image2D i), imp.request (.image2D i))

/-- `material(i)`. -/
def material (imp : AbstractImporter) (i : Nat) : Option MaterialData × AbstractImporter :=
  (imp.opened.bind (fun f => f.material i), imp.request (.material i))

/-- `mesh(i)`. -/
def mesh (imp : AbstractImporter) (i : Nat) : Option MeshData × AbstractImporter :=
  (imp.opened.bind (fun f => f.mesh i), imp.request (.mesh i))

/-- `scene(i)`. -/
def scene (imp : AbstractImporter) (i : Nat) : Option SceneData × AbstractImporter :=
  (imp.opened.bind (fun f => f.scene i), imp.request (.scene i))

/-- `object3D(i)`; `none` is a null pointer. -/
def object3D (imp : AbstractImporter) (i : Nat) : Option ObjectData3D × AbstractImporter :=
  (imp.opened.bind (fun f => f.object3D i), imp.request (.object3D i))

end AbstractImporter

/-! ## `McRtcGui::importData` -/

/-- The loop of `Math::log2(UnsignedInt)`: `while(number >>= 1) ++log;`. -/
def log2Loop : Nat → Nat → Nat → Nat
  | 0, _, log => log
  | fuel + 1, number, log =>
    if number / 2 = 0 then log else log2Loop fuel (number / 2) (log + 1)

/-- `Math::log2(number)`; `number` iterations always suffice. -/
def log2 (number : Nat) : Nat := log2Loop number number 0

/-- The format selection of lines 173-182; `none` is the `continue` branch. -/
def textureFormat : PixelFormat → Option TextureFormat
  | .RGB8Unorm => some .RGB8
  | .RGBA8Unorm => some .RGBA8
  | .other _ => none

/-- The body of the texture loop (lines 165-193): the texture stored in slot
`i`, or `none` when the iteration ends in `continue`. -/
def importTexture (imp : AbstractImporter) (i : Nat) : Option Texture2D × AbstractImporter :=
  match imp.texture i with
  | (none, imp1) => (none, imp1)
  | (some textureData, imp1) =>
    if textureData.type ≠ .Texture2D then (none, imp1)
    else
      match imp1.image2D textureData.image with
      | (none, imp2) => (none, imp2)
      | (some imageData, imp2) =>
        match textureFormat imageData.format with
        | none => (none, imp2)
        | some format =>
          (some
            { magnificationFilter := textureData.magnificationFilter
              minificationFilter := textureData.minificationFilter
              mipmapFilter := textureData.mipmapFilter
              wrapping := textureData.wrapping
              levels := log2 (max imageData.size.1 imageData.size.2) + 1
              format := format
              size := imageData.size
              image := imageData }, imp2)

/-- The body of the material loop (lines 201-208). -/
def importMaterial (imp : AbstractImporter) (i : Nat) :
    Option PhongMaterialData × AbstractImporter :=
  match imp.material i with
  | (none, imp1) => (none, imp1)
  | (some materialData, imp1) =>
    if !materialData.phong then (none, imp1) else (some materialData.data, imp1)

/-- The body of the mesh loop (lines 214-223). -/
def importMesh (imp : AbstractImporter) (i : Nat) : Option GLMesh × AbstractImporter :=
  match imp.mesh i with
  | (none, imp1) => (none, imp1)
  | (some meshData, imp1) =>
    if !meshData.hasNormal || meshData.primitive ≠ .Triangles then (none, imp1)
    else (some ⟨meshData⟩, imp1)

/-- A loop `for(i = 0; i != count; ++i)` over a freshly allocated array: an
iteration either leaves slot `i` empty or assigns it. -/
def fillSlots {α : Type} (body : AbstractImporter → Nat → Option α × AbstractImporter) :
    List Nat → List (Option α) × AbstractImporter → List (Option α) × AbstractImporter
  | [], st => st
  | i :: rest, (out, imp) =>
    match body imp i with
    | (none, imp1) => fillSlots body rest (out, imp1)
    | (some v, imp1) => fillSlots body rest (out.set i (some v), imp1)

/-- Allocation of `count` empty slots followed by the loop over them. -/
def importArray {α : Type} (body : AbstractImporter → Nat → Option α × AbstractImporter)
    (count : Nat) (imp : AbstractImporter) : List (Option α) × AbstractImporter :=
  fillSlots body (List.range count) (List.replicate count none, imp)

/-- The `UnsignedInt` a scene id converts to. -/
def sceneIndex (d : Int) : Nat := (d % 4294967296).toNat

/-- Lines 225-240: the default scene and the object array. -/
def importScene (imp : AbstractImporter) :
    Option SceneData × List (Option ObjectData3D) × AbstractImporter :=
  if imp.defaultScene ≠ -1 then
    match imp.scene (sceneIndex imp.defaultScene) with
    | (none, imp1) => (none, [], imp1)
    | (some scene, imp1) =>
      match importArray AbstractImporter.object3D imp1.object3DCount imp1 with
      | (objects, imp2) => (some scene, objects, imp2)
  else
    (none, [], imp)

/-- Modelled from the spec: the declaration of `McRtcGui` is in `McRtcGui.h`,
which is not among the sources.  These are the members the import path
touches: the cache `importedData_` (a map from path to entry that never
evicts, here an association list with at most one pair per path), the plugin
`importer_`, and the application's draw group `drawables_`. -/
structure McRtcGui where
  importedData_ : List (String × ImportedMesh)
  importer_ : AbstractImporter
  drawables_ : GroupId

/-- Lines 162-241: the entry built after a successful `openFile`. -/
def buildEntry (imp0 : AbstractImporter) : ImportedMesh × AbstractImporter :=
  match importArray importTexture imp0.textureCount imp0 with
  | (textures, imp1) =>
    match importArray importMaterial imp1.materialCount imp1 with
    | (materials, imp2) =>
      match importArray importMesh imp2.meshCount imp2 with
      | (meshes, imp3) =>
        match importScene imp3 with
        | (scene, objects, imp4) =>
          ({ textures_ := textures, materials_ := materials, meshes_ := meshes,
             scene_ := scene, objects_ := objects }, imp4)

/-- `McRtcGui::importData(path)`: the entry returned and the members after the
call. -/
def McRtcGui.importData (self : McRtcGui) (path : String) : ImportedMesh × McRtcGui :=
  match self.importedData_.lookup path with
  | some entry => (entry, self)
  | none =>
    match self.importer_.openFile path with
    | (false, imp0) =>
      ({}, { self with importedData_ := (path, {}) :: self.importedData_, importer_ := imp0 })
    | (true, imp0) =>
      match buildEntry imp0 with
      | (out, imp1) =>
        (out, { self with importedData_ := (path, out) :: self.importedData_, importer_ := imp1 })

/-- `McRtcGui::loadMesh(path, parent, group)`: the parent node and the members
after the call. -/
def McRtcGui.loadMesh (self : McRtcGui) (fuel : Nat) (path : String) (parent : Object3D)
    (group : GroupId) : Except Fault (Object3D × McRtcGui) :=
  match self.importData path with
  | (data, self1) =>
    match populate fuel self1.drawables_ data parent group with
    | .error e => .error e
    | .ok parent1 => .ok (parent1, self1)

/-! ## `CommonDrawable::hidden` -/

/-- The feature lists of the draw groups, by group id; a drawable is named by
its `id`. -/
abbrev Groups := GroupId → List Nat

/-- `group->remove(feature)`: erase the feature from the list of group `k`.
Magnum asserts that the feature is listed; erasing a feature that is not
listed is taken to change nothing. -/
def Groups.remove (gs : Groups) (k : GroupId) (x : Nat) : Groups :=
  fun j => if j = k then (gs j).erase x else gs j

/-- `group->add(feature)`: detach the feature if it is listed, then append
it to the list of group `k`. -/
def Groups.add (gs : Groups) (k : GroupId) (x : Nat) : Groups :=
  fun j => if j = k then (gs j).erase x ++ [x] else gs j

/-- Modelled from the spec: the declaration of `CommonDrawable` is in
`Primitives.h`, which is not among the sources.  A drawable node with the
drawables below it: its identity, the draw group `group_` it belongs to, the
flag `hidden_` (section 4.4: Hidden or Visible), and `children()`, which
`hidden` takes to be drawables too. -/
structure CommonDrawable where
  id : Nat
  group_ : GroupId
  hidden_ : Bool
  children : List CommonDrawable
deriving Repr

mutual
/-- `CommonDrawable::hidden(hidden)`: the drawable and the groups after the
call. -/
def CommonDrawable.hidden (hidden : Bool) : CommonDrawable → Groups → CommonDrawable × Groups
  | ⟨id, group_, hidden_, children⟩, gs =>
    if hidden_ = hidden then
      (⟨id, group_, hidden_, children⟩, gs)
    else
      match CommonDrawable.hiddenEach hidden children
          (if hidden then gs.remove group_ id else gs.add group_ id) with
      | (children1, gs1) => (⟨id, group_, hidden, children1⟩, gs1)
/-- The loop `for(auto & c : children()) c.hidden(hidden)`. -/
def CommonDrawable.hiddenEach (hidden : Bool) :
    List CommonDrawable → Groups → List CommonDrawable × Groups
  | [], gs => ([], gs)
  | c :: cs, gs =>
    match CommonDrawable.hidden hidden c gs with
    | (c1, gs1) =>
      match CommonDrawable.hiddenEach hidden cs gs1 with
      | (cs1, gs2) => (c1 :: cs1, gs2)
end

/-- The drawable reached from `t` by following child positions. -/
def CommonDrawable.subtreeAt : List Nat → CommonDrawable → Option CommonDrawable
  | [], t => some t
  | i :: p, t =>
    match t.children[i]? with
    | none => none
    | some c => CommonDrawable.subtreeAt p c

/-- A scene of drawables: the tree and the draw groups. -/
structure Scene where
  root : CommonDrawable
  groups : Groups

/-- The call `n.hidden(hidden)` on the drawable `n` at position `p` of the
tree `t`: the tree and the groups after the call.  A position that names no
drawable names no call. -/
def CommonDrawable.hiddenAt (hidden : Bool) :
    List Nat → CommonDrawable → Groups → CommonDrawable × Groups
  | [], t, gs => t.hidden hidden gs
  | i :: p, t, gs =>
    match t.children[i]? with
    | none => (t, gs)
    | some c =>
      match CommonDrawable.hiddenAt hidden p c gs with
      | (c1, gs1) => ({ t with children := t.children.set i c1 }, gs1)

/-- The call `n.hidden(hidden)` on the drawable at position `p` of a scene. -/
def Scene.hidden (s : Scene) (p : List Nat) (hidden : Bool) : Scene :=
  match s.root.hiddenAt hidden p s.groups with
  | (root1, gs1) => ⟨root1, gs1⟩

mutual
/-- Every drawable of a tree: the tree's own node first, then those below. -/
def CommonDrawable.descendants : CommonDrawable → List CommonDrawable
  | ⟨id, group_, hidden_, children⟩ =>
    ⟨id, group_, hidden_, children⟩ :: CommonDrawable.descendantsEach children
/-- Every drawable of a list of trees. -/
def CommonDrawable.descendantsEach : List CommonDrawable → List CommonDrawable
  | [] => []
  | c :: cs => CommonDrawable.descendants c ++ CommonDrawable.descendantsEach cs
end

/-- The identities of all drawables of a tree. -/
def CommonDrawable.ids (t : CommonDrawable) : List Nat :=
  t.descendants.map (fun d => d.id)

mutual
/-- Every drawable of the tree has `hidden_ = b`. -/
def CommonDrawable.allFlags (b : Bool) : CommonDrawable → Bool
  | ⟨_, _, hidden_, children⟩ => (hidden_ == b) && CommonDrawable.allFlagsEach b children
/-- Every drawable of every tree of the list has `hidden_ = b`. -/
def CommonDrawable.allFlagsEach (b : Bool) : List CommonDrawable → Bool
  | [] => true
  | c :: cs => CommonDrawable.allFlags b c && CommonDrawable.allFlagsEach b cs
end

mutual
/-- No visible drawable lies below a hidden one. -/
def CommonDrawable.hiddenBelowHidden : CommonDrawable → Bool
  | ⟨_, _, hidden_, children⟩ =>
    (!hidden_ || CommonDrawable.allFlagsEach true children)
      && CommonDrawable.hiddenBelowHiddenEach children
/-- The same for every tree of a list. -/
def CommonDrawable.hiddenBelowHiddenEach : List CommonDrawable → Bool
  | [] => true
  | c :: cs => CommonDrawable.hiddenBelowHidden c && CommonDrawable.hiddenBelowHiddenEach cs
end

/-- A drawable is listed in the group it was constructed with. -/
def Groups.lists (gs : Groups) (d : CommonDrawable) : Prop := d.id ∈ gs d.group_

/-- Modelled from the spec: the constructor of `CommonDrawable` is in
`Primitives.h`, which is not among the sources.  The scene right after
construction (section 4.4: the initial state is Visible; section 3: a drawable
belongs to exactly one draw group): every drawable is visible and listed in its
group, no two drawables share an identity, no group lists a feature twice. -/
def Scene.Initial (s : Scene) : Prop :=
  s.root.ids.Nodup ∧ (∀ k, (s.groups k).Nodup) ∧
    ∀ d ∈ s.root.descendants, d.hidden_ = false ∧ s.groups.lists d

/-- The scenes reached from an initial one by calls of `hidden` on arbitrary
drawables with arbitrary arguments. -/
inductive Scene.Reachable : Scene → Prop where
  | init (s : Scene) (h : s.Initial) : Scene.Reachable s
  | step (s : Scene) (p : List Nat) (hidden : Bool) (h : Scene.Reachable s) :
      Scene.Reachable (s.hidden p hidden)

/-! ## `McRtcGui::drawArrow` -/

/-- Magnum `Vector3` over a field `K`. -/
structure Vector3 (K : Type) where
  x : K
  y : K
  z : K
deriving DecidableEq, Repr

namespace Vector3

variable {K : Type} [LinearOrderedField K]

/-- `a - b`. -/
def sub (a b : Vector3 K) : Vector3 K := ⟨a.x - b.x, a.y - b.y, a.z - b.z⟩

/-- `a + b`. -/
def add (a b : Vector3 K) : Vector3 K := ⟨a.x + b.x, a.y + b.y, a.z + b.z⟩

/-- `c * a`. -/
def smul (c : K) (a : Vector3 K) : Vector3 K := ⟨c * a.x, c * a.y, c * a.z⟩

/-- `a / c`. -/
def div (a : Vector3 K) (c : K) : Vector3 K := ⟨a.x / c, a.y / c, a.z / c⟩

/-- `Math::dot(a, b)`. -/
def dot (a b : Vector3 K) : K := a.x * b.x + a.y * b.y + a.z * b.z

/-- `Math::cross(a, b)`. -/
def cross (a b : Vector3 K) : Vector3 K :=
  ⟨a.y * b.z - a.z * b.y, a.z * b.x - a.x * b.z, a.x * b.y - a.y * b.x⟩

/-- `a.length()`, the square root being supplied. -/
def length (sqrt : K → K) (a : Vector3 K) : K := sqrt (dot a a)

/-- `a.normalized()`. -/
def normalized (sqrt : K → K) (a : Vector3 K) : Vector3 K := div a (length sqrt a)

/-- `Math::angle(a, b)` of two unit vectors, the arc cosine being supplied. -/
def angle (acos : K → K) (a b : Vector3 K) : K := acos (dot a b)

end Vector3

/-- Which primitive a draw call of `drawArrow` renders. -/
inductive ArrowPart where
  | shaft
  | head
deriving DecidableEq, Repr

/-- One `draw` call of `drawArrow`: the primitive (a cylinder for the shaft, a
cone for the head) is built around the Y axis with radius one and the given
half length, scaled uniformly by `scale`, rotated by `-theta` about `axis` and
translated. -/
structure ArrowDraw (K : Type) where
  part : ArrowPart
  halfLength : K
  scale : K
  translation : Vector3 K
  theta : K
  axis : Vector3 K
  color : Color4

/-- The length along the arrow of what a draw call renders. -/
def ArrowDraw.length {K : Type} [LinearOrderedField K] (d : ArrowDraw K) : K :=
  2 * d.halfLength * d.scale

/-- The shaft draw of `drawArrow` (lines 492-497): a capped cylinder of half
length `0.5 * shaft_len / r`, scaled by `r = shaft_diam / 2`, centred half way
along the shaft. -/
def shaftDraw {K : Type} [LinearOrderedField K] (start normal : Vector3 K)
    (shaft_len shaft_diam theta : K) (axis : Vector3 K) (color : Color4) : ArrowDraw K :=
  let r := shaft_diam / 2
  ⟨.shaft, (1 / 2) * shaft_len / r, r,
    Vector3.add start (Vector3.smul ((1 / 2) * shaft_len) normal), theta, axis, color⟩

/-- The head draw of `drawArrow` (lines 501-507): a capped cone of half length
`0.5 * head_len / r`, its points scaled by `r = head_diam / 2`, centred half
way along the head. -/
def headDraw {K : Type} [LinearOrderedField K] (start normal : Vector3 K)
    (shaft_len head_len head_diam theta : K) (axis : Vector3 K) (color : Color4) :
    ArrowDraw K :=
  let r := head_diam / 2
  ⟨.head, (1 / 2) * head_len / r, r,
    Vector3.add start (Vector3.smul (shaft_len + (1 / 2) * head_len) normal), theta, axis,
    color⟩

/-- `McRtcGui::drawArrow` over a field with exact arithmetic, square root and
arc cosine being supplied: the draw calls issued, in order. -/
def drawArrow {K : Type} [LinearOrderedField K] (sqrt acos : K → K) (start end_ : Vector3 K)
    (shaft_diam head_diam head_len : K) (color : Color4) : List (ArrowDraw K) :=
  let normal := Vector3.sub end_ start
  let height := Vector3.length sqrt normal
  if height = 0 then []
  else
    let normal := Vector3.div normal height
    let head_len := if head_len ≥ height then height else head_len
    let shaft_len := height - head_len
    let theta := Vector3.angle acos normal ⟨0, 1, 0⟩
    let axis := Vector3.cross normal ⟨0, 1, 0⟩
    let axis := if Vector3.length sqrt axis = 0 then ⟨1, 0, 0⟩ else axis
    let axis := Vector3.normalized sqrt axis
    (if shaft_len ≠ 0 ∧ shaft_diam ≠ 0 then
      [shaftDraw start normal shaft_len shaft_diam theta axis color]
    else []) ++
    (if head_len ≠ 0 ∧ head_diam ≠ 0 then
      [headDraw start normal shaft_len head_len head_diam theta axis color]
    else [])

/-! ## Predicates used to state the properties -/

/-- The node `addObject` creates for the object record `objectData` carries the
drawable `d` and no other: the drawable step yields exactly `[d]`, and whenever
the recursion into the children returns the nodes `cs`, the call returns the
new node with local transformation, drawables `[d]` and children `cs`. -/
def AttachesOnly (data : ImportedMesh) (group : GroupId) (objectData : ObjectData3D)
    (d : Drawable) : Prop :=
  addObjectDrawables data group objectData = .ok [d] ∧
    ∀ (fuel i : Nat) (cs : List Object3D),
      arrayGet data.objects_ i = .ok (some objectData) →
      addEach (addObject fuel data group) objectData.children = .ok cs →
      addObject (fuel + 1) data group i =
        .ok (some (.mk objectData.transformation [d] cs))

/-! ## Sample data -/

/-- A compiled triangle mesh with normals. -/
def sampleMesh : GLMesh := ⟨⟨0, true, .Triangles⟩⟩

/-- A loaded 4x4 RGB texture. -/
def sampleTexture : Texture2D :=
  { magnificationFilter := 0, minificationFilter := 0, mipmapFilter := 0, wrapping := (0, 0),
    levels := 3, format := .RGB8, size := (4, 4), image := ⟨.RGB8Unorm, (4, 4)⟩ }

/-- A diffuse color other than white. -/
def sampleRed : Color4 := ⟨255, 0, 0, 255⟩

/-- A mesh object of `sampleAsset` using the given material index. -/
def sampleNode (material : Int) : ObjectData3D :=
  { transformation := 7, instanceType := .Mesh, instanceId := 0, material := material,
    children := [] }

/-- A cache entry with one mesh, a loaded and an empty texture slot, an empty
material slot, a color-only material and two textured materials, and a scene
of five mesh nodes, one for each material choice. -/
def sampleAsset : ImportedMesh :=
  { textures_ := [some sampleTexture, none]
    materials_ := [none, some ⟨sampleRed, none⟩, some ⟨sampleRed, some 1⟩,
      some ⟨sampleRed, some 0⟩]
    meshes_ := [some sampleMesh]
    scene_ := some ⟨[0, 1, 2, 3, 4]⟩
    objects_ := [some (sampleNode (-1)), some (sampleNode 0), some (sampleNode 1),
      some (sampleNode 2), some (sampleNode 3)] }

/-- What the texture loop leaves in slot `i` when `file` is open: the value of
the loop body, whatever else the importer holds. -/
def textureSlot (file : FileData) (i : Nat) : Option Texture2D :=
  (importTexture ⟨fun _ => none, some file, []⟩ i).1

/-- What the material loop leaves in slot `i` when `file` is open. -/
def materialSlot (file : FileData) (i : Nat) : Option PhongMaterialData :=
  (importMaterial ⟨fun _ => none, some file, []⟩ i).1

/-- What the mesh loop leaves in slot `i` when `file` is open. -/
def meshSlot (file : FileData) (i : Nat) : Option GLMesh :=
  (importMesh ⟨fun _ => none, some file, []⟩ i).1

/-- A decoded file: three 2D textures (the image of the first cannot be
decoded, the second decodes to a pixel format other than RGB8/RGBA8, the third
to an 8x4 RGB image), one Phong material with a red diffuse color and diffuse
texture 0, a triangle mesh with normals and one without, and a default scene
whose root object 0 (mesh 0, material 0) has the child object 1 (mesh 1,
material 0). -/
def robotFile : FileData :=
  { textureCount := 3
    texture := fun i => if i < 3 then some ⟨.Texture2D, 0, 0, 0, (0, 0), i⟩ else none
    image2D := fun i =>
      if i = 1 then some ⟨.other 0, (8, 4)⟩
      else if i = 2 then some ⟨.RGB8Unorm, (8, 4)⟩ else none
    materialCount := 1
    material := fun i => if i = 0 then some ⟨true, ⟨sampleRed, some 0⟩⟩ else none
    meshCount := 2
    mesh := fun i =>
      if i = 0 then some ⟨0, true, .Triangles⟩
      else if i = 1 then some ⟨1, false, .Triangles⟩ else none
    defaultScene := 0
    scene := fun i => if i = 0 then some ⟨[0]⟩ else none
    object3DCount := 2
    object3D := fun i =>
      if i = 0 then some ⟨10, .Mesh, 0, 0, [1]⟩
      else if i = 1 then some ⟨11, .Mesh, 1, 0, []⟩ else none }

/-- An application with an empty cache whose importer can open `robot.dae`
and nothing else; its own draw group is group 1. -/
def sampleGui : McRtcGui :=
  { importedData_ := []
    importer_ :=
      { disk := fun path => if path = "robot.dae" then some robotFile else none
        opened := none
        calls := [] }
    drawables_ := 1 }

/-- An empty parent node. -/
def emptyParent : Object3D := .mk 0 [] []

/-- The shapes of a scene tree with the two nodes 0 and 1: both are roots (in
either order), or one is the only root and the other its child. -/
inductive TwoNodeShape where
  | roots01
  | roots10
  | child01
  | child10
deriving DecidableEq, Repr

/-- The root object ids of a two-node scene. -/
def TwoNodeShape.roots : TwoNodeShape → List Nat
  | .roots01 => [0, 1]
  | .roots10 => [1, 0]
  | .child01 => [0]
  | .child10 => [1]

/-- The children of object 0 in a two-node scene. -/
def TwoNodeShape.children0 : TwoNodeShape → List Nat
  | .child01 => [1]
  | _ => []

/-- The children of object 1 in a two-node scene. -/
def TwoNodeShape.children1 : TwoNodeShape → List Nat
  | .child10 => [0]
  | _ => []

/-- The decoded file of the scenario: two meshes, mesh 0 (`m0`) triangles with
normals and mesh 1 without normals; one Phong material `material` whose diffuse
texture index `texIdx` names a texture that fails to decode (the record or its
image); a default scene of two mesh nodes, node 0 on mesh 0 and node 1 on
mesh 1, both with material 0. -/
structure RobotScenario (file : FileData) (texIdx : Nat) (material : PhongMaterialData)
    (m0 : MeshData) (shape : TwoNodeShape) : Prop where
  meshCount : file.meshCount = 2
  mesh0 : file.mesh 0 = some m0
  mesh0_normals : m0.hasNormal = true
  mesh0_triangles : m0.primitive = .Triangles
  mesh1 : ∃ m1, file.mesh 1 = some m1 ∧ m1.hasNormal = false
  materialCount : file.materialCount = 1
  material0 : file.material 0 = some ⟨true, material⟩
  diffuseTexture : material.diffuseTexture = some texIdx
  texIdx_lt : texIdx < file.textureCount
  texture_fails : file.texture texIdx = none ∨
    ∃ td, file.texture texIdx = some td ∧ file.image2D td.image = none
  defaultScene : file.defaultScene ≠ -1
  scene : file.scene (sceneIndex file.defaultScene) = some ⟨shape.roots⟩
  object3DCount : file.object3DCount = 2
  object0 : ∃ t, file.object3D 0 = some ⟨t, .Mesh, 0, 0, shape.children0⟩
  object1 : ∃ t, file.object3D 1 = some ⟨t, .Mesh, 1, 0, shape.children1⟩

/-- Every index held by an object record names a position of the array it
refers to, `-1` standing for "no mesh" and "no material". -/
def ObjectData3D.wellIndexed (data : ImportedMesh) (objectData : ObjectData3D) : Bool :=
  objectData.children.all (fun c => decide (c < data.objects_.length)) &&
  (if objectData.instanceType = .Mesh ∧ objectData.instanceId ≠ -1 then
    decide (0 ≤ objectData.instanceId) &&
    decide (objectData.instanceId.toNat < data.meshes_.length) &&
    (decide (objectData.material = -1) ||
      (decide (0 ≤ objectData.material) &&
        decide (objectData.material.toNat < data.materials_.length)))
  else true)

/-- Every mesh, material, diffuse-texture, child and root index of the entry
names a position of the array it refers to. -/
def ImportedMesh.wellIndexed (data : ImportedMesh) : Bool :=
  data.objects_.all (fun o =>
    match o with
    | none => true
    | some objectData => objectData.wellIndexed data) &&
  data.materials_.all (fun m =>
    match m with
    | none => true
    | some material =>
      match material.diffuseTexture with
      | none => true
      | some t => decide (t < data.textures_.length)) &&
  (match data.scene_ with
  | none => true
  | some scene => scene.children3D.all (fun c => decide (c < data.objects_.length)))

/-- The node graph is tree-shaped: `rank` decreases from every object to each
of its children, so no object is its own descendant. -/
def ImportedMesh.RankedBy (data : ImportedMesh) (rank : Nat → Nat) : Prop :=
  ∀ i objectData, data.objects_[i]? = some (some objectData) →
    ∀ c ∈ objectData.children, rank c < rank i

/-- A decoded file with one loaded texture, one Phong material whose diffuse
texture index is `diffuseTexture`, one triangle mesh with normals, and a
default scene with the single mesh object 0 holding the given mesh index,
material index and child ids. -/
def oneNodeFile (instanceId material : Int) (diffuseTexture : Nat) (children : List Nat) :
    FileData :=
  { textureCount := 1
    texture := fun i => if i = 0 then some ⟨.Texture2D, 0, 0, 0, (0, 0), 0⟩ else none
    image2D := fun i => if i = 0 then some ⟨.RGB8Unorm, (4, 4)⟩ else none
    materialCount := 1
    material := fun i => if i = 0 then some ⟨true, ⟨sampleRed, some diffuseTexture⟩⟩ else none
    meshCount := 1
    mesh := fun i => if i = 0 then some ⟨0, true, .Triangles⟩ else none
    defaultScene := 0
    scene := fun i => if i = 0 then some ⟨[0]⟩ else none
    object3DCount := 1
    object3D := fun i =>
      if i = 0 then some ⟨10, .Mesh, instanceId, material, children⟩ else none }

/-- An application with an empty cache whose importer decodes every path to
`file`. -/
def guiReading (file : FileData) : McRtcGui :=
  { importedData_ := []
    importer_ := { disk := fun _ => some file, opened := none, calls := [] }
    drawables_ := 1 }

/-- The cache entry `importData` builds for `robotFile`. -/
def robotAsset : ImportedMesh := (sampleGui.importData "robot.dae").1

/-- The pair naming a drawable in the groups: its group and its identity. -/
def CommonDrawable.key (d : CommonDrawable) : GroupId × Nat := (d.group_, d.id)

/-- The keys of all drawables of a tree. -/
def CommonDrawable.keys (t : CommonDrawable) : List (GroupId × Nat) :=
  t.descendants.map CommonDrawable.key

/-- The keys of all drawables of a list of trees. -/
def CommonDrawable.keysEach (cs : List CommonDrawable) : List (GroupId × Nat) :=
  (CommonDrawable.descendantsEach cs).map CommonDrawable.key

/-- The flag of every drawable of the tree says whether its group lists it:
`hidden_` is true exactly when the drawable is not in its group. -/
def Groups.Agrees (gs : Groups) (t : CommonDrawable) : Prop :=
  ∀ d ∈ t.descendants, (d.hidden_ = true ↔ ¬ gs.lists d)

/-- The same for a list of trees. -/
def Groups.AgreesEach (gs : Groups) (cs : List CommonDrawable) : Prop :=
  ∀ d ∈ CommonDrawable.descendantsEach cs, (d.hidden_ = true ↔ ¬ gs.lists d)

/-- No two drawables share an identity, no group lists a feature twice, and
the flags agree with the groups. -/
def Scene.WellFormed (s : Scene) : Prop :=
  s.root.ids.Nodup ∧ (∀ k, (s.groups k).Nodup) ∧ s.groups.Agrees s.root

/-- A scene right after construction: drawable 0 with child 1 with child 2,
all visible and listed in group 0. -/
def chainScene : Scene :=
  { root := ⟨0, 0, false, [⟨1, 0, false, [⟨2, 0, false, []⟩]⟩]⟩
    groups := fun k => if k = 0 then [0, 1, 2] else [] }

/-- The chain after hiding drawable 1 and then showing its child 2. -/
def chainSceneShownBelowHidden : Scene :=
  (chainScene.hidden [0] true).hidden [0, 0] false

/-- The chain after hiding drawable 1. -/
def chainSceneChildHidden : Scene := chainScene.hidden [0] true

/-- A loop body answers from the open file only and leaves it open. -/
structure ReadsOpenFile {α : Type}
    (body : AbstractImporter → Nat → Option α × AbstractImporter) : Prop where
  opened : ∀ imp i, (body imp i).2.opened = imp.opened
  value : ∀ imp imp1 i, imp.opened = imp1.opened → (body imp i).1 = (body imp1 i).1

/-! ## The group calls of `CommonDrawable::hidden` -/

/-- A call `group_->remove(*this)` or `group_->add(*this)` made by `hidden`,
with the group, the identity of the drawable, and whether the group listed the
drawable when the call was made. -/
inductive GroupCall where
  | remove (group : GroupId) (id : Nat) (listed : Bool)
  | add (group : GroupId) (id : Nat) (listed : Bool)
deriving DecidableEq, Repr

/-- The call removes a drawable the group lists, or adds one it does not
list. -/
def GroupCall.expected : GroupCall → Bool
  | .remove _ _ listed => listed
  | .add _ _ listed => !listed

mutual
/-- The calls on draw groups that `CommonDrawable::hidden(hidden)` makes, in
order: none when the flag already equals `hidden`, else the drawable's own
call (line 15 or 19) followed by those of the loop over the children. -/
def CommonDrawable.hiddenCalls (hidden : Bool) : CommonDrawable → Groups → List GroupCall
  | ⟨id, group_, hidden_, children⟩, gs =>
    if hidden_ = hidden then
      []
    else
      (if hidden then GroupCall.remove group_ id (decide (id ∈ gs group_))
        else GroupCall.add group_ id (decide (id ∈ gs group_))) ::
        CommonDrawable.hiddenCallsEach hidden children
          (if hidden then gs.remove group_ id else gs.add group_ id)
/-- The calls made by the loop `for(auto & c : children()) c.hidden(hidden)`:
each child is called with the groups the calls before it have left. -/
def CommonDrawable.hiddenCallsEach (hidden : Bool) :
    List CommonDrawable → Groups → List GroupCall
  | [], _ => []
  | c :: cs, gs =>
    CommonDrawable.hiddenCalls hidden c gs ++
      CommonDrawable.hiddenCallsEach hidden cs (c.hidden hidden gs).2
end

/-- The group calls made by `n.hidden(hidden)` on the drawable at position `p`
of a scene. -/
def Scene.hiddenCalls (s : Scene) (p : List Nat) (hidden : Bool) : List GroupCall :=
  match s.root.subtreeAt p with
  | none => []
  | some n => n.hiddenCalls hidden s.groups

/-- The draw group a drawable was registered in by its constructor. -/
def Drawable.group : Drawable → GroupId
  | .ColoredDrawable _ _ group => group
  | .TexturedDrawable _ _ group => group

/-- A decoded file with one triangle mesh with normals and nothing else: no
texture, no material, no default scene. -/
def flatFile : FileData :=
  { textureCount := 0
    texture := fun _ => none
    image2D := fun _ => none
    materialCount := 0
    material := fun _ => none
    meshCount := 1
    mesh := fun i => if i = 0 then some ⟨0, true, .Triangles⟩ else none
    defaultScene := -1
    scene := fun _ => none
    object3DCount := 0
    object3D := fun _ => none }

/-! # Properties -/

/-! ## Scene population: the fallback chain -/

theorem attachesOnly_of_drawables {data : ImportedMesh} {group : GroupId}
    {objectData : ObjectData3D} {d : Drawable}
    (h : addObjectDrawables data group objectData = .ok [d]) :
    AttachesOnly data group objectData d := by
  refine ⟨h, ?_⟩
  intro fuel i cs hobj hkids
  simp [addObject, hobj, h, hkids]

/-- C1: a node visited by `addObject` whose instance is a mesh with a loaded
mesh slot gets exactly one drawable on its new transform node: colored white
when it has no material (`-1`) or the material slot is empty, colored with the
diffuse color when the material has no diffuse texture, colored white when the
diffuse texture's slot is empty, textured with that texture when it is
loaded. -/
theorem addObject_fallback_chain (data : ImportedMesh) (group : GroupId)
    (objectData : ObjectData3D) (mesh : GLMesh)
    (htype : objectData.instanceType = .Mesh)
    (hmesh : arrayGetInt data.meshes_ objectData.instanceId = .ok (some mesh)) :
    ((objectData.material = -1 ∨ arrayGetInt data.materials_ objectData.material = .ok none) →
        AttachesOnly data group objectData (.ColoredDrawable mesh white group)) ∧
    (∀ material, arrayGetInt data.materials_ objectData.material = .ok (some material) →
        material.diffuseTexture = none →
        AttachesOnly data group objectData
          (.ColoredDrawable mesh material.diffuseColor group)) ∧
    (∀ material t, arrayGetInt data.materials_ objectData.material = .ok (some material) →
        material.diffuseTexture = some t → arrayGet data.textures_ t = .ok none →
        AttachesOnly data group objectData (.ColoredDrawable mesh white group)) ∧
    (∀ material t texture,
        arrayGetInt data.materials_ objectData.material = .ok (some material) →
        material.diffuseTexture = some t → arrayGet data.textures_ t = .ok (some texture) →
        AttachesOnly data group objectData (.TexturedDrawable mesh texture group)) := by
  have hinst : objectData.instanceId ≠ -1 := by
    intro heq
    rw [heq] at hmesh
    simp [arrayGetInt] at hmesh
  have hne : ∀ {slot}, arrayGetInt data.materials_ objectData.material = .ok slot →
      objectData.material ≠ -1 := by
    intro slot h heq
    rw [heq] at h
    simp [arrayGetInt] at h
  refine ⟨?_, ?_, ?_, ?_⟩
  · rintro (h | h)
    · exact attachesOnly_of_drawables (by simp [addObjectDrawables, htype, hinst, hmesh, h])
    · exact attachesOnly_of_drawables
        (by simp [addObjectDrawables, htype, hinst, hmesh, h, hne h])
  · intro material h ht
    exact attachesOnly_of_drawables
      (by simp [addObjectDrawables, htype, hinst, hmesh, h, hne h, ht])
  · intro material t h ht htex
    exact attachesOnly_of_drawables
      (by simp [addObjectDrawables, htype, hinst, hmesh, h, hne h, ht, htex])
  · intro material t texture h ht htex
    exact attachesOnly_of_drawables
      (by simp [addObjectDrawables, htype, hinst, hmesh, h, hne h, ht, htex])

theorem addObject_fallback_chain_witness :
    AttachesOnly sampleAsset 5 (sampleNode (-1)) (.ColoredDrawable sampleMesh white 5) ∧
    AttachesOnly sampleAsset 5 (sampleNode 0) (.ColoredDrawable sampleMesh white 5) ∧
    AttachesOnly sampleAsset 5 (sampleNode 1) (.ColoredDrawable sampleMesh sampleRed 5) ∧
    AttachesOnly sampleAsset 5 (sampleNode 2) (.ColoredDrawable sampleMesh white 5) ∧
    AttachesOnly sampleAsset 5 (sampleNode 3) (.TexturedDrawable sampleMesh sampleTexture 5) :=
  ⟨(addObject_fallback_chain sampleAsset 5 (sampleNode (-1)) sampleMesh rfl rfl).1
      (Or.inl rfl),
   (addObject_fallback_chain sampleAsset 5 (sampleNode 0) sampleMesh rfl rfl).1
      (Or.inr rfl),
   (addObject_fallback_chain sampleAsset 5 (sampleNode 1) sampleMesh rfl rfl).2.1
      ⟨sampleRed, none⟩ rfl rfl,
   (addObject_fallback_chain sampleAsset 5 (sampleNode 2) sampleMesh rfl rfl).2.2.1
      ⟨sampleRed, some 1⟩ 1 rfl rfl rfl,
   (addObject_fallback_chain sampleAsset 5 (sampleNode 3) sampleMesh rfl rfl).2.2.2
      ⟨sampleRed, some 0⟩ 0 sampleTexture rfl rfl rfl⟩

/-! ## The import cache -/

theorem lookup_cons_self {β : Type} (path : String) (b : β) (es : List (String × β)) :
    List.lookup path ((path, b) :: es) = some b := by
  simp [List.lookup_cons]

theorem importData_cached (s : McRtcGui) (path : String) :
    (s.importData path).2.importedData_.lookup path = some (s.importData path).1 := by
  unfold McRtcGui.importData
  split
  · next entry h => exact h
  · split
    · simp [lookup_cons_self]
    · simp [lookup_cons_self]

theorem importData_hit (s : McRtcGui) (path : String) (entry : ImportedMesh)
    (h : s.importedData_.lookup path = some entry) : s.importData path = (entry, s) := by
  simp [McRtcGui.importData, h]

theorem importData_open_failed (s : McRtcGui) (path : String)
    (hmiss : s.importedData_.lookup path = none) (hfail : s.importer_.disk path = none) :
    s.importData path =
      ({}, { s with importedData_ := (path, {}) :: s.importedData_,
                    importer_ := (s.importer_.openFile path).2 }) := by
  simp [McRtcGui.importData, hmiss, AbstractImporter.openFile, hfail]

/-- C2: two successive `importData(path)` calls return the same cache entry
with the same contents, and the second call changes nothing: the cache and the
importer, with the record of the decode requests it has received, are what the
first call left, so the second call made no request (`openFile` included).
Nothing is assumed of the first call, so this holds also when its `openFile`
failed. -/
theorem importData_twice (s : McRtcGui) (path : String) :
    ((s.importData path).2.importData path).1 = (s.importData path).1 ∧
    ((s.importData path).2.importData path).2 = (s.importData path).2 ∧
    ((s.importData path).2.importData path).2.importer_.calls
      = (s.importData path).2.importer_.calls ∧
    ((s.importData path).2.importData path).2.importedData_.lookup path
      = some (s.importData path).1 := by
  have h := importData_hit _ path _ (importData_cached s path)
  rw [h]
  exact ⟨rfl, rfl, rfl, importData_cached s path⟩

/-- C3: when the path is not cached and `openFile` fails, `importData` returns
an entry whose textures, materials, meshes and objects are empty and whose
scene is absent, and `loadMesh` on that path, at that moment or later from the
cache, returns the parent as it was: no transform node is created and no
drawable is attached. -/
theorem importData_failure_draws_nothing (s : McRtcGui) (path : String)
    (hmiss : s.importedData_.lookup path = none) (hfail : s.importer_.disk path = none) :
    (s.importData path).1.textures_ = [] ∧ (s.importData path).1.materials_ = [] ∧
    (s.importData path).1.meshes_ = [] ∧ (s.importData path).1.objects_ = [] ∧
    (s.importData path).1.scene_ = none ∧
    ∀ (fuel : Nat) (parent : Object3D) (group : GroupId),
      s.loadMesh fuel path parent group = .ok (parent, (s.importData path).2) ∧
      (s.importData path).2.loadMesh fuel path parent group
        = .ok (parent, (s.importData path).2) := by
  have h1 := importData_open_failed s path hmiss hfail
  have hc := importData_cached s path
  have h2 := importData_hit _ path _ hc
  refine ⟨by rw [h1], by rw [h1], by rw [h1], by rw [h1], by rw [h1], ?_⟩
  intro fuel parent group
  constructor
  · unfold McRtcGui.loadMesh
    rw [h1]
    simp [populate]
  · unfold McRtcGui.loadMesh
    rw [h2, h1]
    simp [populate]

/-! ## The array loops of `importData` -/

theorem fillSlots_append {α : Type}
    (body : AbstractImporter → Nat → Option α × AbstractImporter) (l1 l2 : List Nat)
    (st : List (Option α) × AbstractImporter) :
    fillSlots body (l1 ++ l2) st = fillSlots body l2 (fillSlots body l1 st) := by
  induction l1 generalizing st with
  | nil => rfl
  | cons i rest ih =>
    obtain ⟨out, imp⟩ := st
    simp only [List.cons_append, fillSlots]
    split <;> exact ih _

theorem fillSlots_range {α : Type}
    {body : AbstractImporter → Nat → Option α × AbstractImporter} (hb : ReadsOpenFile body)
    (m : Nat) (imp : AbstractImporter) :
    ∀ n, n ≤ m →
      (fillSlots body (List.range n) (List.replicate m none, imp)).1.length = m ∧
      (fillSlots body (List.range n) (List.replicate m none, imp)).2.opened = imp.opened ∧
      ∀ j, (fillSlots body (List.range n) (List.replicate m none, imp)).1[j]? =
        if j < n then some (body imp j).1 else if j < m then some none else none := by
  intro n
  induction n with
  | zero =>
    intro _
    refine ⟨by simp [fillSlots], by simp [fillSlots], ?_⟩
    intro j
    simp [fillSlots, List.getElem?_replicate]
  | succ n ih =>
    intro hn
    obtain ⟨hlen, hop, hget⟩ := ih (Nat.le_of_succ_le hn)
    rw [List.range_succ, fillSlots_append]
    generalize fillSlots body (List.range n) (List.replicate m none, imp) = st at hlen hop hget
    obtain ⟨out, imp1⟩ := st
    simp only at hlen hop hget
    have hv : (body imp1 n).1 = (body imp n).1 := hb.value imp1 imp n hop
    have ho : (body imp1 n).2.opened = imp.opened := (hb.opened imp1 n).trans hop
    cases hbody : body imp1 n with
    | mk v imp2 =>
      rw [hbody] at hv ho
      simp only at hv ho
      cases v with
      | none =>
        simp only [fillSlots, hbody]
        refine ⟨hlen, ho, ?_⟩
        intro j
        rw [hget j]
        by_cases h1 : j < n
        · simp [h1, Nat.lt_succ_of_lt h1]
        · by_cases h2 : j = n
          · subst h2
            have : j < m := hn
            simp [this, ← hv]
          · have h3 : ¬ j < n + 1 := by omega
            simp [h1, h3]
      | some v =>
        simp only [fillSlots, hbody]
        refine ⟨by simp [hlen], ho, ?_⟩
        intro j
        rw [List.getElem?_set]
        by_cases h2 : n = j
        · subst h2
          have : n < out.length := by omega
          simp [this, ← hv]
        · rw [if_neg h2, hget j]
          by_cases h1 : j < n
          · simp [h1, Nat.lt_succ_of_lt h1]
          · have h3 : ¬ j < n + 1 := by omega
            simp [h1, h3]

theorem importArray_eq {α : Type}
    {body : AbstractImporter → Nat → Option α × AbstractImporter} (hb : ReadsOpenFile body)
    (count : Nat) (imp : AbstractImporter) :
    (importArray body count imp).1 = (List.range count).map (fun i => (body imp i).1) ∧
    (importArray body count imp).2.opened = imp.opened := by
  obtain ⟨hlen, hop, hget⟩ := fillSlots_range hb count imp count (Nat.le_refl _)
  refine ⟨?_, hop⟩
  apply List.ext_getElem?
  intro j
  unfold importArray
  rw [hget j]
  by_cases h : j < count
  · simp [h, List.getElem?_range]
  · have : (List.range count)[j]? = none := List.getElem?_eq_none (by simp; omega)
    simp [h, this]

theorem importTexture_reads : ReadsOpenFile importTexture := by
  have key : ∀ imp i, (importTexture imp i).2.opened = imp.opened ∧
      (importTexture imp i).1 = (importTexture ⟨fun _ => none, imp.opened, []⟩ i).1 := by
    intro imp i
    unfold importTexture
    simp only [AbstractImporter.texture, AbstractImporter.image2D, AbstractImporter.request]
    cases imp.opened.bind (fun f => f.texture i) with
    | none => exact ⟨rfl, rfl⟩
    | some td =>
      by_cases h2 : td.type = .Texture2D
      · simp only [h2, ne_eq, not_true_eq_false, if_false]
        cases imp.opened.bind (fun f => f.image2D td.image) with
        | none => exact ⟨rfl, rfl⟩
        | some img =>
          simp only
          cases textureFormat img.format with
          | none => exact ⟨rfl, rfl⟩
          | some fmt => exact ⟨rfl, rfl⟩
      · simp only [ne_eq, h2, not_false_eq_true, if_true]
        exact ⟨trivial, trivial⟩
  constructor
  · intro imp i
    exact (key imp i).1
  · intro imp imp1 i h
    rw [(key imp i).2, (key imp1 i).2, h]

theorem importMaterial_reads : ReadsOpenFile importMaterial := by
  have key : ∀ imp i, (importMaterial imp i).2.opened = imp.opened ∧
      (importMaterial imp i).1 = (importMaterial ⟨fun _ => none, imp.opened, []⟩ i).1 := by
    intro imp i
    unfold importMaterial
    simp only [AbstractImporter.material, AbstractImporter.request]
    cases imp.opened.bind (fun f => f.material i) with
    | none => exact ⟨rfl, rfl⟩
    | some md =>
      simp only
      cases md.phong <;> exact ⟨rfl, rfl⟩
  constructor
  · intro imp i
    exact (key imp i).1
  · intro imp imp1 i h
    rw [(key imp i).2, (key imp1 i).2, h]

theorem importMesh_reads : ReadsOpenFile importMesh := by
  have key : ∀ imp i, (importMesh imp i).2.opened = imp.opened ∧
      (importMesh imp i).1 = (importMesh ⟨fun _ => none, imp.opened, []⟩ i).1 := by
    intro imp i
    unfold importMesh
    simp only [AbstractImporter.mesh, AbstractImporter.request]
    cases imp.opened.bind (fun f => f.mesh i) with
    | none => exact ⟨rfl, rfl⟩
    | some md =>
      simp only
      split <;> exact ⟨rfl, rfl⟩
  constructor
  · intro imp i
    exact (key imp i).1
  · intro imp imp1 i h
    rw [(key imp i).2, (key imp1 i).2, h]

theorem object3D_reads : ReadsOpenFile AbstractImporter.object3D := by
  constructor
  · intro imp i
    rfl
  · intro imp imp1 i h
    simp [AbstractImporter.object3D, h]

/-- The scene and the object array `importData` stores for an open file. -/
theorem importScene_eq (imp : AbstractImporter) (file : FileData)
    (hop : imp.opened = some file) :
    (importScene imp).1 =
      (if file.defaultScene ≠ -1 then file.scene (sceneIndex file.defaultScene) else none) ∧
    (importScene imp).2.1 =
      (if file.defaultScene ≠ -1 then
        match file.scene (sceneIndex file.defaultScene) with
        | none => []
        | some _ => (List.range file.object3DCount).map file.object3D
      else []) := by
  unfold importScene
  simp only [AbstractImporter.defaultScene, hop]
  by_cases hd : file.defaultScene = -1
  · simp [hd]
  · simp only [ne_eq, hd, not_false_eq_true, if_true]
    simp only [AbstractImporter.scene, hop, Option.some_bind, AbstractImporter.request]
    cases hsc : file.scene (sceneIndex file.defaultScene) with
    | none => simp
    | some sc =>
      have h := importArray_eq object3D_reads
        (AbstractImporter.object3DCount
          { disk := imp.disk, opened := some file,
            calls := imp.calls ++ [ImporterCall.scene (sceneIndex file.defaultScene)] })
        { disk := imp.disk, opened := some file,
          calls := imp.calls ++ [ImporterCall.scene (sceneIndex file.defaultScene)] }
      simp only [h.1]
      simp [AbstractImporter.object3DCount, AbstractImporter.object3D]

/-- The entry `importData` builds on a cache miss when `openFile` succeeds,
array by array. -/
theorem importData_opened (s : McRtcGui) (path : String) (file : FileData)
    (hmiss : s.importedData_.lookup path = none) (hopen : s.importer_.disk path = some file) :
    (s.importData path).1.textures_ = (List.range file.textureCount).map (textureSlot file) ∧
    (s.importData path).1.materials_
      = (List.range file.materialCount).map (materialSlot file) ∧
    (s.importData path).1.meshes_ = (List.range file.meshCount).map (meshSlot file) ∧
    (s.importData path).1.scene_ =
      (if file.defaultScene ≠ -1 then file.scene (sceneIndex file.defaultScene) else none) ∧
    (s.importData path).1.objects_ =
      (if file.defaultScene ≠ -1 then
        match file.scene (sceneIndex file.defaultScene) with
        | none => []
        | some _ => (List.range file.object3DCount).map file.object3D
      else []) := by
  unfold McRtcGui.importData
  simp only [hmiss, AbstractImporter.openFile, hopen, Option.isSome_some]
  unfold buildEntry
  obtain ⟨imp0, himp0⟩ : ∃ imp0, imp0 = AbstractImporter.mk s.importer_.disk (some file)
      (s.importer_.calls ++ [ImporterCall.openFile path]) := ⟨_, rfl⟩
  rw [← himp0]
  have h0 : imp0.opened = some file := by rw [himp0]
  simp only
  have ht := importArray_eq importTexture_reads imp0.textureCount imp0
  have h1 : (importArray importTexture imp0.textureCount imp0).2.opened = some file :=
    ht.2.trans h0
  have hm := importArray_eq importMaterial_reads
    (importArray importTexture imp0.textureCount imp0).2.materialCount
    (importArray importTexture imp0.textureCount imp0).2
  generalize (importArray importTexture imp0.textureCount imp0).2 = imp1 at h1 hm ⊢
  have h2 : (importArray importMaterial imp1.materialCount imp1).2.opened = some file :=
    hm.2.trans h1
  have hg := importArray_eq importMesh_reads
    (importArray importMaterial imp1.materialCount imp1).2.meshCount
    (importArray importMaterial imp1.materialCount imp1).2
  generalize (importArray importMaterial imp1.materialCount imp1).2 = imp2 at h2 hg ⊢
  have h3 : (importArray importMesh imp2.meshCount imp2).2.opened = some file :=
    hg.2.trans h2
  obtain ⟨hs1, hs2⟩ := importScene_eq _ file h3
  refine ⟨?_, ?_, ?_, hs1, hs2⟩
  · rw [ht.1]
    simp only [AbstractImporter.textureCount, h0]
    apply List.map_congr_left
    intro i _
    exact importTexture_reads.value _ _ i h0
  · rw [hm.1]
    simp only [AbstractImporter.materialCount, h1]
    apply List.map_congr_left
    intro i _
    exact importMaterial_reads.value _ _ i h1
  · rw [hg.1]
    simp only [AbstractImporter.meshCount, h2]
    apply List.map_congr_left
    intro i _
    exact importMesh_reads.value _ _ i h2

theorem log2Loop_eq (fuel : Nat) :
    ∀ number log, number ≤ fuel → log2Loop fuel number log = log + Nat.log 2 number := by
  induction fuel with
  | zero =>
    intro number log h
    have : number = 0 := by omega
    subst this
    simp [log2Loop]
  | succ fuel ih =>
    intro number log h
    unfold log2Loop
    by_cases h2 : number / 2 = 0
    · have : number < 2 := by omega
      simp [h2, Nat.log_of_lt this]
    · have hge : 2 ≤ number := by omega
      rw [if_neg h2, ih (number / 2) (log + 1) (by omega),
        Nat.log_of_one_lt_of_le (by decide) hge]
      omega

/-- `Math::log2` is the floor of the binary logarithm. -/
theorem log2_eq (number : Nat) : log2 number = Nat.log 2 number := by
  unfold log2
  rw [log2Loop_eq number number 0 (Nat.le_refl _)]
  simp

theorem importData_failure_draws_nothing_witness :
    (sampleGui.importData "missing.dae").1.textures_ = [] ∧
    (sampleGui.importData "missing.dae").1.materials_ = [] ∧
    (sampleGui.importData "missing.dae").1.meshes_ = [] ∧
    (sampleGui.importData "missing.dae").1.objects_ = [] ∧
    (sampleGui.importData "missing.dae").1.scene_ = none ∧
    ∀ (fuel : Nat) (parent : Object3D) (group : GroupId),
      sampleGui.loadMesh fuel "missing.dae" parent group
        = .ok (parent, (sampleGui.importData "missing.dae").2) ∧
      (sampleGui.importData "missing.dae").2.loadMesh fuel "missing.dae" parent group
        = .ok (parent, (sampleGui.importData "missing.dae").2) :=
  importData_failure_draws_nothing sampleGui "missing.dae" rfl (by simp [sampleGui])

/-! ## Texture slots -/

/-- The texture loop body as a function of the open file. -/
theorem textureSlot_eq (file : FileData) (i : Nat) :
    textureSlot file i =
      match file.texture i with
      | none => none
      | some td =>
        if td.type ≠ .Texture2D then none
        else
          match file.image2D td.image with
          | none => none
          | some img =>
            match textureFormat img.format with
            | none => none
            | some fmt =>
              some ⟨td.magnificationFilter, td.minificationFilter, td.mipmapFilter, td.wrapping,
                log2 (max img.size.1 img.size.2) + 1, fmt, img.size, img⟩ := by
  unfold textureSlot importTexture
  simp only [AbstractImporter.texture, AbstractImporter.request, Option.some_bind]
  cases file.texture i with
  | none => rfl
  | some td =>
    simp only
    by_cases h2 : td.type = .Texture2D
    · simp only [h2, ne_eq, not_true_eq_false, if_false, AbstractImporter.image2D,
        AbstractImporter.request, Option.some_bind]
      cases file.image2D td.image with
      | none => rfl
      | some img =>
        simp only
        cases textureFormat img.format <;> rfl
    · simp [h2]

theorem textureSlot_none_iff (file : FileData) (i : Nat) :
    textureSlot file i = none ↔
      (file.texture i = none ∨ ∃ td, file.texture i = some td ∧
        (td.type ≠ .Texture2D ∨ file.image2D td.image = none ∨
          ∃ img, file.image2D td.image = some img ∧
            img.format ≠ .RGB8Unorm ∧ img.format ≠ .RGBA8Unorm)) := by
  rw [textureSlot_eq]
  cases h1 : file.texture i with
  | none => simp
  | some td =>
    by_cases h2 : td.type = .Texture2D
    · cases h3 : file.image2D td.image with
      | none => simp [h2, h3]
      | some img =>
        cases h4 : img.format with
        | RGB8Unorm => simp [textureFormat, h2, h3, h4]
        | RGBA8Unorm => simp [textureFormat, h2, h3, h4]
        | other c => simp [textureFormat, h2, h3, h4]
    · simp [h2]

theorem textureSlot_some (file : FileData) (i : Nat) (tex : Texture2D)
    (h : textureSlot file i = some tex) :
    ∃ td img, file.texture i = some td ∧ file.image2D td.image = some img ∧
      tex.size = img.size ∧ tex.levels = Nat.log 2 (max img.size.1 img.size.2) + 1 := by
  rw [textureSlot_eq] at h
  cases h1 : file.texture i with
  | none => simp [h1] at h
  | some td =>
    rw [h1] at h
    by_cases h2 : td.type = .Texture2D
    · cases h3 : file.image2D td.image with
      | none => simp [h2, h3] at h
      | some img =>
        cases h4 : textureFormat img.format with
        | none => simp [h2, h3, h4] at h
        | some fmt =>
          simp only [h2, h3, h4, ne_eq, not_true_eq_false, if_false, Option.some.injEq] at h
          refine ⟨td, img, rfl, h3, ?_, ?_⟩
          · rw [← h]
          · rw [← h, log2_eq]
    · simp [h2] at h

/-- C10 (amended): after a successful `openFile` the textures array has length
`textureCount()`; slot `i` is empty exactly when texture record `i` is missing,
is not of the 2D type, its image fails to decode, or the image decodes to a
pixel format that is neither RGB8Unorm nor RGBA8Unorm; in every other case the
slot holds a texture of the image's size whose mip level count is
`floor(log2(max(width, height))) + 1`. -/
theorem importData_texture_slots (s : McRtcGui) (path : String) (file : FileData)
    (hmiss : s.importedData_.lookup path = none) (hopen : s.importer_.disk path = some file) :
    (s.importData path).1.textures_.length = file.textureCount ∧
    ∀ i, i < file.textureCount →
      ((s.importData path).1.textures_[i]? = some none ↔
        (file.texture i = none ∨ ∃ td, file.texture i = some td ∧
          (td.type ≠ .Texture2D ∨ file.image2D td.image = none ∨
            ∃ img, file.image2D td.image = some img ∧
              img.format ≠ .RGB8Unorm ∧ img.format ≠ .RGBA8Unorm))) ∧
      ((s.importData path).1.textures_[i]? ≠ some none →
        ∃ tex td img, (s.importData path).1.textures_[i]? = some (some tex) ∧
          file.texture i = some td ∧ file.image2D td.image = some img ∧
          tex.size = img.size ∧
          tex.levels = Nat.log 2 (max img.size.1 img.size.2) + 1) := by
  obtain ⟨ht, -⟩ := importData_opened s path file hmiss hopen
  rw [ht]
  refine ⟨by simp, ?_⟩
  intro i hi
  have hget : ((List.range file.textureCount).map (textureSlot file))[i]?
      = some (textureSlot file i) := by
    simp [List.getElem?_range, hi]
  rw [hget]
  constructor
  · rw [← textureSlot_none_iff]
    simp
  · intro hne
    cases hs : textureSlot file i with
    | none => simp [hs] at hne
    | some tex =>
      obtain ⟨td, img, h1, h2, h3, h4⟩ := textureSlot_some file i tex hs
      exact ⟨tex, td, img, rfl, h1, h2, h3, h4⟩

theorem importData_texture_slots_witness :
    (sampleGui.importData "robot.dae").1.textures_.length = robotFile.textureCount ∧
    ∀ i, i < robotFile.textureCount →
      ((sampleGui.importData "robot.dae").1.textures_[i]? = some none ↔
        (robotFile.texture i = none ∨ ∃ td, robotFile.texture i = some td ∧
          (td.type ≠ .Texture2D ∨ robotFile.image2D td.image = none ∨
            ∃ img, robotFile.image2D td.image = some img ∧
              img.format ≠ .RGB8Unorm ∧ img.format ≠ .RGBA8Unorm))) ∧
      ((sampleGui.importData "robot.dae").1.textures_[i]? ≠ some none →
        ∃ tex td img, (sampleGui.importData "robot.dae").1.textures_[i]? = some (some tex) ∧
          robotFile.texture i = some td ∧ robotFile.image2D td.image = some img ∧
          tex.size = img.size ∧
          tex.levels = Nat.log 2 (max img.size.1 img.size.2) + 1) :=
  importData_texture_slots sampleGui "robot.dae" robotFile rfl (by simp [sampleGui])

/-- C10 as stated fails: texture record 1 of `robotFile` is present, is of the
2D type and its image decodes (to an 8x4 image of another pixel format), yet
slot 1 is left empty; slot 2, whose image is RGB, holds a texture with
`floor(log2 8) + 1 = 4` levels. -/
theorem importData_texture_slot_empty_though_decoded :
    robotFile.texture 1 = some ⟨.Texture2D, 0, 0, 0, (0, 0), 1⟩ ∧
    robotFile.image2D 1 = some ⟨.other 0, (8, 4)⟩ ∧
    (sampleGui.importData "robot.dae").1.textures_[1]? = some none ∧
    ((sampleGui.importData "robot.dae").1.textures_[2]?).map (Option.map Texture2D.levels)
      = some (some 4) := by
  refine ⟨rfl, rfl, ?_, ?_⟩ <;> decide

/-! ## The two-mesh scenario -/

theorem allDrawablesList_append (xs ys : List Object3D) :
    Object3D.allDrawablesList (xs ++ ys)
      = Object3D.allDrawablesList xs ++ Object3D.allDrawablesList ys := by
  induction xs with
  | nil => simp [Object3D.allDrawablesList]
  | cons x xs ih => simp [Object3D.allDrawablesList, ih]

theorem allDrawables_eq (o : Object3D) :
    o.allDrawables = o.drawables ++ Object3D.allDrawablesList o.children := by
  cases o
  simp [Object3D.allDrawables, Object3D.drawables, Object3D.children]

theorem populate_two_nodes (data : ImportedMesh) (m0 : MeshData) (material : PhongMaterialData)
    (texIdx : Nat) (shape : TwoNodeShape) (t0 t1 : Matrix4)
    (hmeshes : data.meshes_ = [some ⟨m0⟩, none]) (hmat : data.materials_ = [some material])
    (hdt : material.diffuseTexture = some texIdx) (htex : data.textures_[texIdx]? = some none)
    (hscene : data.scene_ = some ⟨shape.roots⟩)
    (hobj : data.objects_ = [some ⟨t0, .Mesh, 0, 0, shape.children0⟩,
      some ⟨t1, .Mesh, 1, 0, shape.children1⟩])
    (fuel : Nat) (drawables_ : GroupId) (parent : Object3D) (group : GroupId) :
    ∃ parent1, populate (fuel + 2) drawables_ data parent group = .ok parent1 ∧
      parent1.allDrawables = parent.allDrawables ++ [.ColoredDrawable ⟨m0⟩ white group] := by
  have hd0 : ∀ cs, addObjectDrawables data group ⟨t0, .Mesh, 0, 0, cs⟩
      = .ok [.ColoredDrawable ⟨m0⟩ white group] := by
    intro cs
    simp [addObjectDrawables, arrayGetInt, arrayGet, hmeshes, hmat, hdt, htex]
  have hd1 : ∀ cs, addObjectDrawables data group ⟨t1, .Mesh, 1, 0, cs⟩ = .ok [] := by
    intro cs
    simp [addObjectDrawables, arrayGetInt, arrayGet, hmeshes]
  cases shape <;>
    simp [populate, hscene, TwoNodeShape.roots, TwoNodeShape.children0,
      TwoNodeShape.children1, addEach, addObject, arrayGet, hobj, hd0, hd1,
      allDrawables_eq, Object3D.drawables, Object3D.children, allDrawablesList_append,
      Object3D.allDrawablesList, Object3D.allDrawables]

/-- C9 (amended): for a decoded asset with two meshes (mesh 0 triangles with
normals, mesh 1 without normals), one Phong material whose diffuse texture
index names a texture that fails to decode, and a default scene of two nodes on
mesh 0 and mesh 1 with material 0, `importData` yields
`meshes = [Some, None]`, `materials[0] = Some`, `textures[texIdx] = None`, and
`loadMesh` attaches exactly one drawable, which is colored with the default
opaque white (not with a texture, and not with the material's diffuse color). -/
theorem loadMesh_two_mesh_scenario (s : McRtcGui) (path : String) (file : FileData)
    (texIdx : Nat) (material : PhongMaterialData) (m0 : MeshData) (shape : TwoNodeShape)
    (hsc : RobotScenario file texIdx material m0 shape)
    (hmiss : s.importedData_.lookup path = none) (hopen : s.importer_.disk path = some file) :
    (s.importData path).1.meshes_ = [some ⟨m0⟩, none] ∧
    (s.importData path).1.materials_[0]? = some (some material) ∧
    (s.importData path).1.textures_[texIdx]? = some none ∧
    ∀ (fuel : Nat) (parent : Object3D) (group : GroupId), 2 ≤ fuel →
      ∃ parent1, s.loadMesh fuel path parent group = .ok (parent1, (s.importData path).2) ∧
        parent1.allDrawables = parent.allDrawables ++ [.ColoredDrawable ⟨m0⟩ white group] := by
  obtain ⟨ht, hm, hg, hs, ho⟩ := importData_opened s path file hmiss hopen
  obtain ⟨m1, hm1, hn1⟩ := hsc.mesh1
  obtain ⟨t0, ho0⟩ := hsc.object0
  obtain ⟨t1, ho1⟩ := hsc.object1
  have hmeshes : (s.importData path).1.meshes_ = [some ⟨m0⟩, none] := by
    rw [hg, hsc.meshCount]
    simp [List.range_succ, meshSlot, importMesh, AbstractImporter.mesh, hsc.mesh0,
      hsc.mesh0_normals, hsc.mesh0_triangles, hm1, hn1]
  have hmat : (s.importData path).1.materials_ = [some material] := by
    rw [hm, hsc.materialCount]
    simp [List.range_succ, materialSlot, importMaterial, AbstractImporter.material,
      hsc.material0]
  have htex : (s.importData path).1.textures_[texIdx]? = some none := by
    rw [ht]
    have hnone : textureSlot file texIdx = none := by
      rw [textureSlot_none_iff]
      rcases hsc.texture_fails with h | ⟨td, h1, h2⟩
      · exact Or.inl h
      · exact Or.inr ⟨td, h1, Or.inr (Or.inl h2)⟩
    simp [List.getElem?_range, hsc.texIdx_lt, hnone]
  have hscene : (s.importData path).1.scene_ = some ⟨shape.roots⟩ := by
    rw [hs, if_pos hsc.defaultScene, hsc.scene]
  have hobj : (s.importData path).1.objects_ = [some ⟨t0, .Mesh, 0, 0, shape.children0⟩,
      some ⟨t1, .Mesh, 1, 0, shape.children1⟩] := by
    rw [ho, if_pos hsc.defaultScene, hsc.scene]
    simp [hsc.object3DCount, List.range_succ, ho0, ho1]
  refine ⟨hmeshes, by rw [hmat]; rfl, htex, ?_⟩
  intro fuel parent group hfuel
  obtain ⟨k, rfl⟩ : ∃ k, fuel = k + 2 := ⟨fuel - 2, by omega⟩
  obtain ⟨parent1, hp, hdraw⟩ := populate_two_nodes _ m0 material texIdx shape t0 t1 hmeshes
    hmat hsc.diffuseTexture htex hscene hobj k (s.importData path).2.drawables_ parent group
  refine ⟨parent1, ?_, hdraw⟩
  unfold McRtcGui.loadMesh
  simp only [hp]

theorem robotFile_scenario :
    RobotScenario robotFile 0 ⟨sampleRed, some 0⟩ ⟨0, true, .Triangles⟩ .child01 where
  meshCount := rfl
  mesh0 := rfl
  mesh0_normals := rfl
  mesh0_triangles := rfl
  mesh1 := ⟨⟨1, false, .Triangles⟩, rfl, rfl⟩
  materialCount := rfl
  material0 := rfl
  diffuseTexture := rfl
  texIdx_lt := by decide
  texture_fails := Or.inr ⟨⟨.Texture2D, 0, 0, 0, (0, 0), 0⟩, rfl, rfl⟩
  defaultScene := by decide
  scene := rfl
  object3DCount := rfl
  object0 := ⟨10, rfl⟩
  object1 := ⟨11, rfl⟩

theorem loadMesh_two_mesh_scenario_witness :
    (sampleGui.importData "robot.dae").1.meshes_ = [some ⟨⟨0, true, .Triangles⟩⟩, none] ∧
    (sampleGui.importData "robot.dae").1.materials_[0]? = some (some ⟨sampleRed, some 0⟩) ∧
    (sampleGui.importData "robot.dae").1.textures_[0]? = some none ∧
    ∀ (fuel : Nat) (parent : Object3D) (group : GroupId), 2 ≤ fuel →
      ∃ parent1, sampleGui.loadMesh fuel "robot.dae" parent group
          = .ok (parent1, (sampleGui.importData "robot.dae").2) ∧
        parent1.allDrawables
          = parent.allDrawables ++ [.ColoredDrawable ⟨⟨0, true, .Triangles⟩⟩ white group] :=
  loadMesh_two_mesh_scenario sampleGui "robot.dae" robotFile 0 ⟨sampleRed, some 0⟩
    ⟨0, true, .Triangles⟩ .child01 robotFile_scenario rfl (by simp [sampleGui])

/-- C9 as stated fails: `robotFile` is such an asset, its material's diffuse
color is red, and the one drawable `loadMesh` attaches is colored white. -/
theorem loadMesh_two_mesh_scenario_draws_white :
    robotFile.material 0 = some ⟨true, ⟨sampleRed, some 0⟩⟩ ∧
    sampleRed ≠ white ∧
    (sampleGui.loadMesh 2 "robot.dae" emptyParent 5).map (fun r => r.1.allDrawables)
      = .ok [.ColoredDrawable ⟨⟨0, true, .Triangles⟩⟩ white 5] := by
  exact ⟨rfl, by decide, rfl⟩

/-! ## Index safety of scene population -/

theorem arrayGet_ok {α : Type} (a : List α) (i : Nat) (h : i < a.length) :
    arrayGet a i = .ok a[i] := by
  simp [arrayGet, List.getElem?_eq_getElem h]

theorem arrayGetInt_ok {α : Type} (a : List α) (i : Int) (h0 : 0 ≤ i)
    (h : i.toNat < a.length) : arrayGetInt a i = .ok a[i.toNat] := by
  simp [arrayGetInt, not_lt.mpr h0, arrayGet_ok a i.toNat h]

theorem arrayGet_eq_ok {α : Type} {a : List α} {i : Nat} {x : α}
    (h : arrayGet a i = .ok x) : a[i]? = some x := by
  unfold arrayGet at h
  cases hx : a[i]? with
  | none => simp [hx] at h
  | some y =>
    simp only [hx, Except.ok.injEq] at h
    rw [h]

theorem addEach_ok (add : Nat → Except Fault (Option Object3D)) (ids : List Nat)
    (h : ∀ c ∈ ids, ∃ r, add c = .ok r) : ∃ rs, addEach add ids = .ok rs := by
  induction ids with
  | nil => exact ⟨[], rfl⟩
  | cons c cs ih =>
    obtain ⟨r, hr⟩ := h c (List.mem_cons_self _ _)
    obtain ⟨rs, hrs⟩ := ih (fun c1 hc1 => h c1 (List.mem_cons_of_mem _ hc1))
    exact ⟨r.toList ++ rs, by simp [addEach, hr, hrs]⟩

theorem wellIndexed_material {data : ImportedMesh} (hwi : data.wellIndexed = true)
    {k : Nat} {material : PhongMaterialData} {t : Nat}
    (hk : data.materials_[k]? = some (some material))
    (ht : material.diffuseTexture = some t) : t < data.textures_.length := by
  simp only [ImportedMesh.wellIndexed, Bool.and_eq_true, List.all_eq_true] at hwi
  have h := hwi.1.2 (some material) (List.getElem?_mem hk)
  simpa [ht] using h

theorem wellIndexed_object {data : ImportedMesh} (hwi : data.wellIndexed = true)
    {i : Nat} {objectData : ObjectData3D} (hi : data.objects_[i]? = some (some objectData)) :
    objectData.wellIndexed data = true := by
  simp only [ImportedMesh.wellIndexed, Bool.and_eq_true, List.all_eq_true] at hwi
  exact hwi.1.1 (some objectData) (List.getElem?_mem hi)

theorem addObjectDrawables_ok (data : ImportedMesh) (group : GroupId)
    (objectData : ObjectData3D) (hwi : data.wellIndexed = true)
    (hod : objectData.wellIndexed data = true) :
    ∃ ds, addObjectDrawables data group objectData = .ok ds := by
  unfold addObjectDrawables
  by_cases hc : objectData.instanceType = .Mesh ∧ objectData.instanceId ≠ -1
  · rw [if_pos hc]
    simp only [ObjectData3D.wellIndexed, hc, Bool.and_eq_true, decide_eq_true_eq,
      Bool.or_eq_true, if_true, and_self, ne_eq, not_false_eq_true] at hod
    obtain ⟨-, ⟨h0, hlt⟩, hmat⟩ := hod
    rw [arrayGetInt_ok _ _ h0 hlt]
    cases data.meshes_[objectData.instanceId.toNat] with
    | none => exact ⟨_, rfl⟩
    | some mesh =>
      simp only
      by_cases hm : objectData.material = -1
      · rw [if_pos hm]
        exact ⟨_, rfl⟩
      · rw [if_neg hm]
        rcases hmat with hmat | ⟨hm0, hmlt⟩
        · exact absurd hmat hm
        · rw [arrayGetInt_ok _ _ hm0 hmlt]
          cases hmv : data.materials_[objectData.material.toNat] with
          | none => exact ⟨_, rfl⟩
          | some material =>
            simp only
            cases hdt : material.diffuseTexture with
            | none => exact ⟨_, rfl⟩
            | some t =>
              simp only
              have hk : data.materials_[objectData.material.toNat]? = some (some material) := by
                rw [List.getElem?_eq_getElem hmlt, hmv]
              have htlt : t < data.textures_.length := wellIndexed_material hwi hk hdt
              rw [arrayGet_ok _ _ htlt]
              cases data.textures_[t] <;> exact ⟨_, rfl⟩
  · rw [if_neg hc]
    exact ⟨_, rfl⟩

theorem addObject_ok (data : ImportedMesh) (rank : Nat → Nat) (group : GroupId)
    (hwi : data.wellIndexed = true) (hrank : data.RankedBy rank) :
    ∀ fuel i, i < data.objects_.length → rank i < fuel →
      ∃ r, addObject fuel data group i = .ok r := by
  intro fuel
  induction fuel with
  | zero =>
    intro i _ h
    omega
  | succ fuel ih =>
    intro i hi hr
    unfold addObject
    rw [arrayGet_ok _ _ hi]
    cases hobj : data.objects_[i] with
    | none => exact ⟨_, rfl⟩
    | some objectData =>
      simp only
      have hget : data.objects_[i]? = some (some objectData) := by
        rw [List.getElem?_eq_getElem hi, hobj]
      have hod := wellIndexed_object hwi hget
      obtain ⟨ds, hds⟩ := addObjectDrawables_ok data group objectData hwi hod
      rw [hds]
      simp only
      have hkids : ∀ c ∈ objectData.children, ∃ r, addObject fuel data group c = .ok r := by
        intro c hc
        have hlt : c < data.objects_.length := by
          simp only [ObjectData3D.wellIndexed, Bool.and_eq_true, List.all_eq_true,
            decide_eq_true_eq] at hod
          exact hod.1 c hc
        have := hrank i objectData hget c hc
        exact ih c hlt (by omega)
      obtain ⟨cs, hcs⟩ := addEach_ok _ _ hkids
      rw [hcs]
      exact ⟨_, rfl⟩

theorem rank_bound (rank : Nat → Nat) (ids : List Nat) :
    ∃ b, ∀ c ∈ ids, rank c < b := by
  induction ids with
  | nil => exact ⟨0, by simp⟩
  | cons c cs ih =>
    obtain ⟨b, hb⟩ := ih
    refine ⟨max b (rank c + 1), ?_⟩
    intro x hx
    rcases List.mem_cons.mp hx with h | h
    · subst h
      omega
    · have := hb x h
      omega

/-- Termination of scene population: for a cached asset whose indices are all
in range and whose node graph is tree-shaped, `addObject`, the body of
`loadMesh` and `loadMesh` itself return once given enough fuel. -/
theorem populate_returns_of_ranked (data : ImportedMesh) (rank : Nat → Nat)
    (hwi : data.wellIndexed = true) (hrank : data.RankedBy rank) :
    (∀ (group : GroupId) (i fuel : Nat), i < data.objects_.length → rank i < fuel →
      ∃ r, addObject fuel data group i = .ok r) ∧
    (∀ (drawables_ : GroupId) (parent : Object3D) (group : GroupId),
      ∃ fuel0, ∀ fuel, fuel0 ≤ fuel →
        ∃ parent1, populate fuel drawables_ data parent group = .ok parent1) ∧
    (∀ (group : GroupId) (objectData : ObjectData3D), objectData.instanceId = -1 →
      addObjectDrawables data group objectData = .ok []) ∧
    (∀ (self : McRtcGui) (path : String) (parent : Object3D) (group : GroupId),
      (self.importData path).1 = data →
      ∃ fuel0, ∀ fuel, fuel0 ≤ fuel →
        ∃ parent1, self.loadMesh fuel path parent group
          = .ok (parent1, (self.importData path).2)) := by
  have hpop : ∀ (drawables_ : GroupId) (parent : Object3D) (group : GroupId),
      ∃ fuel0, ∀ fuel, fuel0 ≤ fuel →
        ∃ parent1, populate fuel drawables_ data parent group = .ok parent1 := ?_
  refine ⟨fun group i fuel hi hr => addObject_ok data rank group hwi hrank fuel i hi hr, hpop,
    ?_, ?_⟩
  · intro group objectData h
    simp [addObjectDrawables, h]
  · intro self path parent group hdata
    obtain ⟨fuel0, hf⟩ := hpop (self.importData path).2.drawables_ parent group
    refine ⟨fuel0, fun fuel hfuel => ?_⟩
    obtain ⟨parent1, hp⟩ := hf fuel hfuel
    refine ⟨parent1, ?_⟩
    unfold McRtcGui.loadMesh
    simp only [hdata, hp]
  · intro drawables_ parent group
    unfold populate
    cases hs : data.scene_ with
    | none =>
      refine ⟨0, fun fuel _ => ?_⟩
      simp only
      split <;> exact ⟨_, rfl⟩
    | some scene =>
      obtain ⟨b, hb⟩ := rank_bound rank scene.children3D
      refine ⟨b, fun fuel hfuel => ?_⟩
      simp only
      have hroots : ∀ c ∈ scene.children3D, ∃ r, addObject fuel data group c = .ok r := by
        intro c hc
        have hlt : c < data.objects_.length := by
          simp only [ImportedMesh.wellIndexed, hs, Bool.and_eq_true, List.all_eq_true,
            decide_eq_true_eq] at hwi
          exact hwi.2 c hc
        have := hb c hc
        exact addObject_ok data rank group hwi hrank fuel c hlt (by omega)
      obtain ⟨os, hos⟩ := addEach_ok _ _ hroots
      rw [hos]
      exact ⟨_, rfl⟩

theorem robotAsset_ranked : robotAsset.RankedBy (fun i => 1 - i) := by
  intro i objectData h c hc
  have hobj : robotAsset.objects_ = [some ⟨10, .Mesh, 0, 0, [1]⟩, some ⟨11, .Mesh, 1, 0, []⟩] := by
    decide
  rw [hobj] at h
  match i, h with
  | 0, h =>
    simp only [List.getElem?_cons_zero, Option.some.injEq] at h
    subst h
    simp only [List.mem_singleton] at hc
    subst hc
    decide
  | 1, h =>
    simp only [List.getElem?_cons_succ, List.getElem?_cons_zero, Option.some.injEq] at h
    subst h
    simp at hc
  | n + 2, h => simp at h

theorem robotAsset_populate_returns :
    (∀ (group : GroupId) (i fuel : Nat), i < robotAsset.objects_.length → 1 - i < fuel →
      ∃ r, addObject fuel robotAsset group i = .ok r) ∧
    (∀ (drawables_ : GroupId) (parent : Object3D) (group : GroupId),
      ∃ fuel0, ∀ fuel, fuel0 ≤ fuel →
        ∃ parent1, populate fuel drawables_ robotAsset parent group = .ok parent1) ∧
    (∀ (group : GroupId) (objectData : ObjectData3D), objectData.instanceId = -1 →
      addObjectDrawables robotAsset group objectData = .ok []) ∧
    (∀ (self : McRtcGui) (path : String) (parent : Object3D) (group : GroupId),
      (self.importData path).1 = robotAsset →
      ∃ fuel0, ∀ fuel, fuel0 ≤ fuel →
        ∃ parent1, self.loadMesh fuel path parent group
          = .ok (parent1, (self.importData path).2)) :=
  populate_returns_of_ranked robotAsset (fun i => 1 - i) (by decide) robotAsset_ranked

theorem addEach_safe (add : Nat → Except Fault (Option Object3D)) (ids : List Nat)
    (h : ∀ c ∈ ids, add c ≠ .error .outOfRange) : addEach add ids ≠ .error .outOfRange := by
  induction ids with
  | nil =>
    intro he
    simp [addEach] at he
  | cons c cs ih =>
    have hc := h c (List.mem_cons_self _ _)
    have hcs := ih (fun c1 hc1 => h c1 (List.mem_cons_of_mem _ hc1))
    unfold addEach
    cases hadd : add c with
    | error e =>
      simp only
      intro he
      simp only [Except.error.injEq] at he
      apply hc
      rw [hadd, he]
    | ok o =>
      simp only
      cases hrest : addEach add cs with
      | error e =>
        simp only
        intro he
        simp only [Except.error.injEq] at he
        apply hcs
        rw [hrest, he]
      | ok os =>
        simp only
        intro he
        cases he

/-- With all indices in range, `addObject` reads no array out of range,
whatever the fuel and whatever the shape of the node graph. -/
theorem addObject_safe (data : ImportedMesh) (group : GroupId)
    (hwi : data.wellIndexed = true) :
    ∀ fuel i, i < data.objects_.length →
      addObject fuel data group i ≠ .error .outOfRange := by
  intro fuel
  induction fuel with
  | zero =>
    intro i _ he
    simp [addObject] at he
  | succ fuel ih =>
    intro i hi
    unfold addObject
    rw [arrayGet_ok _ _ hi]
    cases hobj : data.objects_[i] with
    | none =>
      simp only
      intro he
      cases he
    | some objectData =>
      simp only
      have hget : data.objects_[i]? = some (some objectData) := by
        rw [List.getElem?_eq_getElem hi, hobj]
      have hod := wellIndexed_object hwi hget
      obtain ⟨ds, hds⟩ := addObjectDrawables_ok data group objectData hwi hod
      rw [hds]
      simp only
      have hkids : ∀ c ∈ objectData.children,
          addObject fuel data group c ≠ .error .outOfRange := by
        intro c hc
        have hlt : c < data.objects_.length := by
          simp only [ObjectData3D.wellIndexed, Bool.and_eq_true, List.all_eq_true,
            decide_eq_true_eq] at hod
          exact hod.1 c hc
        exact ih c hlt
      have hsafe := addEach_safe _ _ hkids
      cases hcs : addEach (addObject fuel data group) objectData.children with
      | error e =>
        simp only
        intro he
        simp only [Except.error.injEq] at he
        apply hsafe
        rw [hcs, he]
      | ok cs =>
        simp only
        intro he
        cases he

theorem populate_safe (data : ImportedMesh) (hwi : data.wellIndexed = true) (fuel : Nat)
    (drawables_ : GroupId) (parent : Object3D) (group : GroupId) :
    populate fuel drawables_ data parent group ≠ .error .outOfRange := by
  unfold populate
  cases hs : data.scene_ with
  | none =>
    simp only
    split
    · intro he
      cases he
    · intro he
      cases he
  | some scene =>
    simp only
    have hroots : ∀ c ∈ scene.children3D,
        addObject fuel data group c ≠ .error .outOfRange := by
      intro c hc
      have hlt : c < data.objects_.length := by
        simp only [ImportedMesh.wellIndexed, hs, Bool.and_eq_true, List.all_eq_true,
          decide_eq_true_eq] at hwi
        exact hwi.2 c hc
      exact addObject_safe data group hwi fuel c hlt
    have hsafe := addEach_safe _ _ hroots
    cases hos : addEach (addObject fuel data group) scene.children3D with
    | error e =>
      simp only
      intro he
      simp only [Except.error.injEq] at he
      apply hsafe
      rw [hos, he]
    | ok os =>
      simp only
      intro he
      cases he

/-- C4 (amended): for a cached asset all of whose mesh, material,
diffuse-texture, child and root node indices are in range for their owning
arrays, `-1` being the one value read as absent, `addObject`, the body of
`loadMesh` and `loadMesh` never read an array out of range, whatever the fuel;
a mesh index `-1` yields no drawable, and a material index `-1` on a loaded
mesh yields the default white colored drawable.  Nothing is promised for an
index that is out of range and not `-1`. -/
theorem populate_in_range_safe (data : ImportedMesh) (hwi : data.wellIndexed = true) :
    (∀ (fuel : Nat) (group : GroupId) (i : Nat), i < data.objects_.length →
      addObject fuel data group i ≠ .error .outOfRange) ∧
    (∀ (fuel : Nat) (drawables_ : GroupId) (parent : Object3D) (group : GroupId),
      populate fuel drawables_ data parent group ≠ .error .outOfRange) ∧
    (∀ (self : McRtcGui) (path : String) (fuel : Nat) (parent : Object3D) (group : GroupId),
      (self.importData path).1 = data →
      self.loadMesh fuel path parent group ≠ .error .outOfRange) ∧
    (∀ (group : GroupId) (objectData : ObjectData3D), objectData.instanceId = -1 →
      addObjectDrawables data group objectData = .ok []) ∧
    (∀ (group : GroupId) (objectData : ObjectData3D) (mesh : GLMesh),
      objectData.instanceType = .Mesh →
      arrayGetInt data.meshes_ objectData.instanceId = .ok (some mesh) →
      objectData.material = -1 →
      addObjectDrawables data group objectData = .ok [.ColoredDrawable mesh white group]) := by
  refine ⟨fun fuel group i hi => addObject_safe data group hwi fuel i hi,
    fun fuel drawables_ parent group => populate_safe data hwi fuel drawables_ parent group,
    ?_, ?_, ?_⟩
  · intro self path fuel parent group hdata
    have hp := populate_safe data hwi fuel (self.importData path).2.drawables_ parent group
    unfold McRtcGui.loadMesh
    simp only [hdata]
    cases hpop : populate fuel (self.importData path).2.drawables_ data parent group with
    | error e =>
      simp only
      intro he
      apply hp
      rw [hpop]
      simp only [Except.error.injEq] at he
      rw [he]
    | ok parent1 =>
      simp only
      intro he
      cases he
  · intro group objectData h
    simp [addObjectDrawables, h]
  · intro group objectData mesh htype hmesh hmat
    have hinst : objectData.instanceId ≠ -1 := by
      intro heq
      rw [heq] at hmesh
      simp [arrayGetInt] at hmesh
    simp [addObjectDrawables, htype, hinst, hmesh, hmat]

theorem populate_in_range_safe_witness :
    (∀ (fuel : Nat) (group : GroupId) (i : Nat), i < robotAsset.objects_.length →
      addObject fuel robotAsset group i ≠ .error .outOfRange) ∧
    (∀ (fuel : Nat) (drawables_ : GroupId) (parent : Object3D) (group : GroupId),
      populate fuel drawables_ robotAsset parent group ≠ .error .outOfRange) ∧
    (∀ (self : McRtcGui) (path : String) (fuel : Nat) (parent : Object3D) (group : GroupId),
      (self.importData path).1 = robotAsset →
      self.loadMesh fuel path parent group ≠ .error .outOfRange) ∧
    (∀ (group : GroupId) (objectData : ObjectData3D), objectData.instanceId = -1 →
      addObjectDrawables robotAsset group objectData = .ok []) ∧
    (∀ (group : GroupId) (objectData : ObjectData3D) (mesh : GLMesh),
      objectData.instanceType = .Mesh →
      arrayGetInt robotAsset.meshes_ objectData.instanceId = .ok (some mesh) →
      objectData.material = -1 →
      addObjectDrawables robotAsset group objectData
        = .ok [.ColoredDrawable mesh white group]) :=
  populate_in_range_safe robotAsset (by decide)

/-- C4 as stated fails: a node tree whose mesh index (3 of 1), material index
(7 of 1), diffuse-texture index (9 of 1) or child index (4 of 1) is out of
range makes `loadMesh` read the array out of range, while the same file with
all indices in range loads one textured drawable. -/
theorem loadMesh_out_of_range_index :
    (guiReading (oneNodeFile 3 0 0 [])).loadMesh 3 "a.dae" emptyParent 5
      = .error .outOfRange ∧
    (guiReading (oneNodeFile 0 7 0 [])).loadMesh 3 "a.dae" emptyParent 5
      = .error .outOfRange ∧
    (guiReading (oneNodeFile 0 0 9 [])).loadMesh 3 "a.dae" emptyParent 5
      = .error .outOfRange ∧
    (guiReading (oneNodeFile 0 0 0 [4])).loadMesh 3 "a.dae" emptyParent 5
      = .error .outOfRange ∧
    ((guiReading (oneNodeFile 0 0 0 [])).loadMesh 3 "a.dae" emptyParent 5).map
        (fun r => r.1.allDrawables.length) = .ok 1 :=
  ⟨rfl, rfl, rfl, rfl, rfl⟩

/-! ## The visibility cascade -/

theorem CommonDrawable.induct {P : CommonDrawable → Prop}
    (step : ∀ id group_ hidden_ children, (∀ c ∈ children, P c) →
      P ⟨id, group_, hidden_, children⟩) (t : CommonDrawable) : P t := by
  refine CommonDrawable.rec (motive_1 := P) (motive_2 := fun cs => ∀ c ∈ cs, P c)
    (fun id g hid cs ih => step id g hid cs ih) ?_ ?_ t
  · intro c hc
    cases hc
  · intro c cs hc hcs x hx
    rcases List.mem_cons.mp hx with h | h
    · rw [h]
      exact hc
    · exact hcs x h

theorem hidden_same (h : Bool) (t : CommonDrawable) (gs : Groups) (heq : t.hidden_ = h) :
    t.hidden h gs = (t, gs) := by
  cases t with
  | mk id g hid cs =>
    simp only at heq
    simp [CommonDrawable.hidden, heq]

theorem hidden_flip (h : Bool) (id : Nat) (g : GroupId) (hid : Bool)
    (cs : List CommonDrawable) (gs : Groups) (hne : hid ≠ h) :
    CommonDrawable.hidden h ⟨id, g, hid, cs⟩ gs =
      (⟨id, g, h, (CommonDrawable.hiddenEach h cs
          (if h then gs.remove g id else gs.add g id)).1⟩,
        (CommonDrawable.hiddenEach h cs (if h then gs.remove g id else gs.add g id)).2) := by
  simp [CommonDrawable.hidden, hne]

theorem hiddenEach_nil (h : Bool) (gs : Groups) :
    CommonDrawable.hiddenEach h [] gs = ([], gs) := by
  simp [CommonDrawable.hiddenEach]

theorem hiddenEach_cons (h : Bool) (c : CommonDrawable) (cs : List CommonDrawable)
    (gs : Groups) :
    CommonDrawable.hiddenEach h (c :: cs) gs =
      ((c.hidden h gs).1 :: (CommonDrawable.hiddenEach h cs (c.hidden h gs).2).1,
        (CommonDrawable.hiddenEach h cs (c.hidden h gs).2).2) := by
  simp [CommonDrawable.hiddenEach]

theorem descendants_mk (id : Nat) (g : GroupId) (hid : Bool) (cs : List CommonDrawable) :
    CommonDrawable.descendants ⟨id, g, hid, cs⟩
      = ⟨id, g, hid, cs⟩ :: CommonDrawable.descendantsEach cs := by
  simp [CommonDrawable.descendants]

theorem descendantsEach_nil : CommonDrawable.descendantsEach [] = [] := by
  simp [CommonDrawable.descendantsEach]

theorem descendantsEach_cons (c : CommonDrawable) (cs : List CommonDrawable) :
    CommonDrawable.descendantsEach (c :: cs)
      = c.descendants ++ CommonDrawable.descendantsEach cs := by
  simp [CommonDrawable.descendantsEach]

theorem descendantsEach_append (l1 l2 : List CommonDrawable) :
    CommonDrawable.descendantsEach (l1 ++ l2)
      = CommonDrawable.descendantsEach l1 ++ CommonDrawable.descendantsEach l2 := by
  induction l1 with
  | nil => simp [descendantsEach_nil]
  | cons c cs ih => simp [descendantsEach_cons, ih]

theorem keys_mk (id : Nat) (g : GroupId) (hid : Bool) (cs : List CommonDrawable) :
    CommonDrawable.keys ⟨id, g, hid, cs⟩ = (g, id) :: CommonDrawable.keysEach cs := by
  simp [CommonDrawable.keys, CommonDrawable.keysEach, descendants_mk, CommonDrawable.key]

theorem keysEach_cons (c : CommonDrawable) (cs : List CommonDrawable) :
    CommonDrawable.keysEach (c :: cs) = c.keys ++ CommonDrawable.keysEach cs := by
  simp [CommonDrawable.keys, CommonDrawable.keysEach, descendantsEach_cons]

theorem keysEach_append (l1 l2 : List CommonDrawable) :
    CommonDrawable.keysEach (l1 ++ l2)
      = CommonDrawable.keysEach l1 ++ CommonDrawable.keysEach l2 := by
  simp [CommonDrawable.keysEach, descendantsEach_append]

theorem ids_eq_keys (t : CommonDrawable) : t.ids = t.keys.map Prod.snd := by
  simp [CommonDrawable.ids, CommonDrawable.keys, CommonDrawable.key, Function.comp_def]

/-! ### What one `remove` or `add` changes -/

theorem remove_frame (gs : Groups) (g : GroupId) (id : Nat) (k : GroupId) (x : Nat)
    (hne : (k, x) ≠ (g, id)) : (x ∈ gs.remove g id k ↔ x ∈ gs k) := by
  unfold Groups.remove
  by_cases hk : k = g
  · subst hk
    have hx : x ≠ id := fun hx => hne (by rw [hx])
    simp [List.mem_erase_of_ne hx]
  · simp [hk]

theorem add_frame (gs : Groups) (g : GroupId) (id : Nat) (k : GroupId) (x : Nat)
    (hne : (k, x) ≠ (g, id)) : (x ∈ gs.add g id k ↔ x ∈ gs k) := by
  unfold Groups.add
  by_cases hk : k = g
  · subst hk
    have hx : x ≠ id := fun hx => hne (by rw [hx])
    simp [List.mem_erase_of_ne hx, hx]
  · simp [hk]

theorem remove_nodup (gs : Groups) (g : GroupId) (id : Nat) (hn : ∀ k, (gs k).Nodup) :
    ∀ k, (gs.remove g id k).Nodup := by
  intro k
  unfold Groups.remove
  by_cases hk : k = g
  · simp [hk, (hn g).erase id]
  · simp [hk, hn k]

theorem add_nodup (gs : Groups) (g : GroupId) (id : Nat) (hn : ∀ k, (gs k).Nodup) :
    ∀ k, (gs.add g id k).Nodup := by
  intro k
  unfold Groups.add
  by_cases hk : k = g
  · simp only [hk, if_true]
    refine List.Nodup.append ((hn g).erase id) (List.nodup_singleton id) ?_
    intro a ha hb
    rw [List.mem_singleton] at hb
    subst hb
    exact ((hn g).mem_erase_iff.mp ha).1 rfl
  · simp [hk, hn k]

theorem remove_not_mem (gs : Groups) (g : GroupId) (id : Nat) (hn : (gs g).Nodup) :
    id ∉ gs.remove g id g := by
  unfold Groups.remove
  simp only [if_true]
  intro h
  exact (hn.mem_erase_iff.mp h).1 rfl

theorem add_mem (gs : Groups) (g : GroupId) (id : Nat) : id ∈ gs.add g id g := by
  simp [Groups.add]

/-! ### What one call of `hidden` changes -/

/-- The call keeps the drawables, their identities and their groups. -/
theorem hidden_keys (h : Bool) (t : CommonDrawable) :
    ∀ gs, (t.hidden h gs).1.keys = t.keys := by
  induction t using CommonDrawable.induct with
  | step id g hid cs ih =>
    have hEach : ∀ (l : List CommonDrawable), (∀ c ∈ l, ∀ gs, (c.hidden h gs).1.keys = c.keys) →
        ∀ gs, CommonDrawable.keysEach (CommonDrawable.hiddenEach h l gs).1
          = CommonDrawable.keysEach l := by
      intro l
      induction l with
      | nil =>
        intro _ gs
        rw [hiddenEach_nil]
      | cons c l ihl =>
        intro hl gs
        rw [hiddenEach_cons]
        simp only [keysEach_cons]
        rw [hl c (List.mem_cons_self _ _),
          ihl (fun c1 hc1 => hl c1 (List.mem_cons_of_mem _ hc1))]
    intro gs
    by_cases heq : hid = h
    · rw [hidden_same h _ gs heq]
    · rw [hidden_flip h id g hid cs gs heq]
      simp only [keys_mk]
      rw [hEach cs ih]

theorem hiddenEach_keys (h : Bool) (cs : List CommonDrawable) :
    ∀ gs, CommonDrawable.keysEach (CommonDrawable.hiddenEach h cs gs).1
      = CommonDrawable.keysEach cs := by
  induction cs with
  | nil =>
    intro gs
    rw [hiddenEach_nil]
  | cons c l ihl =>
    intro gs
    rw [hiddenEach_cons]
    simp only [keysEach_cons]
    rw [hidden_keys, ihl]

/-- The call keeps every group free of repetitions. -/
theorem hidden_nodup (h : Bool) (t : CommonDrawable) :
    ∀ gs : Groups, (∀ k, (gs k).Nodup) → ∀ k, ((t.hidden h gs).2 k).Nodup := by
  induction t using CommonDrawable.induct with
  | step id g hid cs ih =>
    have hEach : ∀ (l : List CommonDrawable),
        (∀ c ∈ l, ∀ gs : Groups, (∀ k, (gs k).Nodup) → ∀ k, ((c.hidden h gs).2 k).Nodup) →
        ∀ gs : Groups, (∀ k, (gs k).Nodup) →
          ∀ k, ((CommonDrawable.hiddenEach h l gs).2 k).Nodup := by
      intro l
      induction l with
      | nil =>
        intro _ gs hn
        rw [hiddenEach_nil]
        exact hn
      | cons c l ihl =>
        intro hl gs hn
        rw [hiddenEach_cons]
        exact ihl (fun c1 hc1 => hl c1 (List.mem_cons_of_mem _ hc1)) _
          (hl c (List.mem_cons_self _ _) gs hn)
    intro gs hn
    by_cases heq : hid = h
    · rw [hidden_same h _ gs heq]
      exact hn
    · rw [hidden_flip h id g hid cs gs heq]
      apply hEach cs ih
      cases h
      · exact add_nodup gs g id hn
      · exact remove_nodup gs g id hn

theorem hiddenEach_nodup (h : Bool) (cs : List CommonDrawable) :
    ∀ gs : Groups, (∀ k, (gs k).Nodup) →
      ∀ k, ((CommonDrawable.hiddenEach h cs gs).2 k).Nodup := by
  induction cs with
  | nil =>
    intro gs hn
    rw [hiddenEach_nil]
    exact hn
  | cons c l ihl =>
    intro gs hn
    rw [hiddenEach_cons]
    exact ihl _ (hidden_nodup h c gs hn)

/-- The call changes the listing of the drawables of the tree only. -/
theorem hidden_frame (h : Bool) (t : CommonDrawable) :
    ∀ (gs : Groups) (k : GroupId) (x : Nat), (k, x) ∉ t.keys →
      (x ∈ (t.hidden h gs).2 k ↔ x ∈ gs k) := by
  induction t using CommonDrawable.induct with
  | step id g hid cs ih =>
    have hEach : ∀ (l : List CommonDrawable),
        (∀ c ∈ l, ∀ (gs : Groups) (k : GroupId) (x : Nat), (k, x) ∉ c.keys →
          (x ∈ (c.hidden h gs).2 k ↔ x ∈ gs k)) →
        ∀ (gs : Groups) (k : GroupId) (x : Nat), (k, x) ∉ CommonDrawable.keysEach l →
          (x ∈ (CommonDrawable.hiddenEach h l gs).2 k ↔ x ∈ gs k) := by
      intro l
      induction l with
      | nil =>
        intro _ gs k x _
        rw [hiddenEach_nil]
      | cons c l ihl =>
        intro hl gs k x hx
        rw [hiddenEach_cons]
        rw [keysEach_cons, List.mem_append, not_or] at hx
        rw [ihl (fun c1 hc1 => hl c1 (List.mem_cons_of_mem _ hc1)) _ k x hx.2]
        exact hl c (List.mem_cons_self _ _) gs k x hx.1
    intro gs k x hx
    by_cases heq : hid = h
    · rw [hidden_same h _ gs heq]
    · rw [hidden_flip h id g hid cs gs heq]
      rw [keys_mk, List.mem_cons, not_or] at hx
      simp only
      rw [hEach cs ih _ k x hx.2]
      cases h
      · exact add_frame gs g id k x hx.1
      · exact remove_frame gs g id k x hx.1

theorem hiddenEach_frame (h : Bool) (cs : List CommonDrawable) :
    ∀ (gs : Groups) (k : GroupId) (x : Nat), (k, x) ∉ CommonDrawable.keysEach cs →
      (x ∈ (CommonDrawable.hiddenEach h cs gs).2 k ↔ x ∈ gs k) := by
  induction cs with
  | nil =>
    intro gs k x _
    rw [hiddenEach_nil]
  | cons c l ihl =>
    intro gs k x hx
    rw [hiddenEach_cons]
    rw [keysEach_cons, List.mem_append, not_or] at hx
    rw [ihl _ k x hx.2]
    exact hidden_frame h c gs k x hx.1

theorem key_mem_keys {t : CommonDrawable} {d : CommonDrawable} (hd : d ∈ t.descendants) :
    (d.group_, d.id) ∈ t.keys :=
  List.mem_map.mpr ⟨d, hd, rfl⟩

theorem key_mem_keysEach {cs : List CommonDrawable} {d : CommonDrawable}
    (hd : d ∈ CommonDrawable.descendantsEach cs) :
    (d.group_, d.id) ∈ CommonDrawable.keysEach cs :=
  List.mem_map.mpr ⟨d, hd, rfl⟩

theorem snd_mem_of_mem {ks : List (GroupId × Nat)} {k : GroupId} {x : Nat}
    (h : (k, x) ∈ ks) : x ∈ ks.map Prod.snd :=
  List.mem_map.mpr ⟨(k, x), h, rfl⟩

/-- Flags that agree with the groups still agree after a call of `hidden`,
when identities are distinct and no group lists a feature twice. -/
theorem hidden_agrees (h : Bool) (t : CommonDrawable) :
    ∀ gs : Groups, (t.keys.map Prod.snd).Nodup → (∀ k, (gs k).Nodup) → gs.Agrees t →
      (t.hidden h gs).2.Agrees (t.hidden h gs).1 := by
  induction t using CommonDrawable.induct with
  | step id g hid cs ih =>
    have hEach : ∀ (l : List CommonDrawable),
        (∀ c ∈ l, ∀ gs : Groups, (c.keys.map Prod.snd).Nodup → (∀ k, (gs k).Nodup) →
          gs.Agrees c → (c.hidden h gs).2.Agrees (c.hidden h gs).1) →
        ∀ gs : Groups, ((CommonDrawable.keysEach l).map Prod.snd).Nodup →
          (∀ k, (gs k).Nodup) → gs.AgreesEach l →
          (CommonDrawable.hiddenEach h l gs).2.AgreesEach
            (CommonDrawable.hiddenEach h l gs).1 := by
      intro l
      induction l with
      | nil =>
        intro _ gs _ _ _ d hd
        rw [hiddenEach_nil, descendantsEach_nil] at hd
        cases hd
      | cons c l ihl =>
        intro hl gs hnd hn hag
        rw [keysEach_cons, List.map_append, List.nodup_append] at hnd
        obtain ⟨hndc, hndl, hdisj⟩ := hnd
        have hagc : gs.Agrees c := by
          intro d hd
          exact hag d (by rw [descendantsEach_cons]; exact List.mem_append_left _ hd)
        have hagl : (c.hidden h gs).2.AgreesEach l := by
          intro d hd
          have hkey : (d.group_, d.id) ∉ c.keys := by
            intro hk
            exact hdisj (snd_mem_of_mem hk) (snd_mem_of_mem (key_mem_keysEach hd))
          have := hag d (by rw [descendantsEach_cons]; exact List.mem_append_right _ hd)
          unfold Groups.lists at this ⊢
          rw [hidden_frame h c gs d.group_ d.id hkey]
          exact this
        have h1 := hl c (List.mem_cons_self _ _) gs hndc hn hagc
        have h2 := ihl (fun c1 hc1 => hl c1 (List.mem_cons_of_mem _ hc1)) (c.hidden h gs).2
          hndl (hidden_nodup h c gs hn) hagl
        intro d hd
        rw [hiddenEach_cons] at hd ⊢
        simp only at hd ⊢
        rw [descendantsEach_cons, List.mem_append] at hd
        rcases hd with hd | hd
        · have hkey : (d.group_, d.id) ∉ CommonDrawable.keysEach l := by
            intro hk
            have hk1 : (d.group_, d.id) ∈ c.keys := by
              rw [← hidden_keys h c gs]
              exact key_mem_keys hd
            exact hdisj (snd_mem_of_mem hk1) (snd_mem_of_mem hk)
          have := h1 d hd
          unfold Groups.lists at this ⊢
          rw [hiddenEach_frame h l _ d.group_ d.id hkey]
          exact this
        · exact h2 d hd
    intro gs hnd hn hag
    by_cases heq : hid = h
    · rw [hidden_same h _ gs heq]
      exact hag
    · rw [hidden_flip h id g hid cs gs heq]
      rw [keys_mk, List.map_cons, List.nodup_cons] at hnd
      obtain ⟨hid_notin, hndcs⟩ := hnd
      simp only at hid_notin
      have hroot : (g, id) ∉ CommonDrawable.keysEach cs := fun hk =>
        hid_notin (snd_mem_of_mem hk)
      have hn0 : ∀ k, ((if h = true then gs.remove g id else gs.add g id) k).Nodup := by
        cases h
        · exact add_nodup gs g id hn
        · exact remove_nodup gs g id hn
      have hag0 : (if h = true then gs.remove g id else gs.add g id).AgreesEach cs := by
        intro d hd
        have hne : (d.group_, d.id) ≠ (g, id) := by
          intro he
          have hx : d.id = id := congrArg Prod.snd he
          exact hid_notin (hx ▸ snd_mem_of_mem (key_mem_keysEach hd))
        have := hag d (by rw [descendants_mk]; exact List.mem_cons_of_mem _ hd)
        unfold Groups.lists at this ⊢
        cases h
        · simp only [Bool.false_eq_true, if_false]
          rw [add_frame gs g id d.group_ d.id hne]
          exact this
        · simp only [if_true]
          rw [remove_frame gs g id d.group_ d.id hne]
          exact this
      have hkids := hEach cs ih _ hndcs hn0 hag0
      intro d hd
      rw [descendants_mk, List.mem_cons] at hd
      rcases hd with hd | hd
      · subst hd
        unfold Groups.lists
        simp only
        rw [hiddenEach_frame h cs _ g id hroot]
        cases h
        · simp only [Bool.false_eq_true, if_false, false_iff, not_not]
          exact add_mem gs g id
        · simp only [if_true, true_iff]
          exact remove_not_mem gs g id (hn g)
      · exact hkids d hd

/-! ### Calls on a drawable inside a tree -/

theorem split_at_child {α : Type} (cs : List α) :
    ∀ (i : Nat) (c : α), cs[i]? = some c →
      ∃ l1 l2, cs = l1 ++ c :: l2 ∧ ∀ c1, cs.set i c1 = l1 ++ c1 :: l2 := by
  induction cs with
  | nil =>
    intro i c h
    simp at h
  | cons a cs ih =>
    intro i c h
    cases i with
    | zero =>
      simp only [List.getElem?_cons_zero, Option.some.injEq] at h
      subst h
      exact ⟨[], cs, rfl, fun c1 => rfl⟩
    | succ i =>
      simp only [List.getElem?_cons_succ] at h
      obtain ⟨l1, l2, h1, h2⟩ := ih i c h
      refine ⟨a :: l1, l2, by rw [h1]; rfl, fun c1 => ?_⟩
      simp [List.set, h2 c1]

theorem set_same_child {α : Type} (cs : List α) (i : Nat) (c : α) (h : cs[i]? = some c) :
    cs.set i c = cs := by
  obtain ⟨l1, l2, h1, h2⟩ := split_at_child cs i c h
  rw [h2 c, ← h1]

theorem hiddenAt_nil (h : Bool) (t : CommonDrawable) (gs : Groups) :
    CommonDrawable.hiddenAt h [] t gs = t.hidden h gs := by
  simp [CommonDrawable.hiddenAt]

theorem hiddenAt_cons_none (h : Bool) (i : Nat) (p : List Nat) (t : CommonDrawable)
    (gs : Groups) (hc : t.children[i]? = none) :
    CommonDrawable.hiddenAt h (i :: p) t gs = (t, gs) := by
  simp [CommonDrawable.hiddenAt, hc]

theorem hiddenAt_cons_some (h : Bool) (i : Nat) (p : List Nat) (id : Nat) (g : GroupId)
    (hid : Bool) (cs : List CommonDrawable) (gs : Groups) (c : CommonDrawable)
    (hc : cs[i]? = some c) :
    CommonDrawable.hiddenAt h (i :: p) ⟨id, g, hid, cs⟩ gs =
      (⟨id, g, hid, cs.set i (CommonDrawable.hiddenAt h p c gs).1⟩,
        (CommonDrawable.hiddenAt h p c gs).2) := by
  simp [CommonDrawable.hiddenAt, hc]

theorem subtreeAt_nil (t : CommonDrawable) : t.subtreeAt [] = some t := by
  simp [CommonDrawable.subtreeAt]

theorem subtreeAt_cons (i : Nat) (p : List Nat) (t : CommonDrawable) :
    t.subtreeAt (i :: p) =
      match t.children[i]? with
      | none => none
      | some c => c.subtreeAt p := by
  simp [CommonDrawable.subtreeAt]

/-- A call on a position that names no drawable changes nothing. -/
theorem hiddenAt_none (h : Bool) (p : List Nat) :
    ∀ (t : CommonDrawable) (gs : Groups), t.subtreeAt p = none →
      CommonDrawable.hiddenAt h p t gs = (t, gs) := by
  induction p with
  | nil =>
    intro t gs hn
    simp [subtreeAt_nil] at hn
  | cons i p ih =>
    intro t gs hn
    rw [subtreeAt_cons] at hn
    cases hc : t.children[i]? with
    | none => exact hiddenAt_cons_none h i p t gs hc
    | some c =>
      rw [hc] at hn
      simp only at hn
      cases t with
      | mk id g hid cs =>
        simp only at hc
        rw [hiddenAt_cons_some h i p id g hid cs gs c hc, ih c gs hn]
        simp only
        rw [set_same_child cs i c hc]

/-- The groups after a call on the drawable `n` inside a tree are those after
the call on `n` alone. -/
theorem hiddenAt_groups (h : Bool) (p : List Nat) :
    ∀ (t n : CommonDrawable) (gs : Groups), t.subtreeAt p = some n →
      (CommonDrawable.hiddenAt h p t gs).2 = (n.hidden h gs).2 := by
  induction p with
  | nil =>
    intro t n gs hn
    simp only [subtreeAt_nil, Option.some.injEq] at hn
    rw [hiddenAt_nil, hn]
  | cons i p ih =>
    intro t n gs hn
    rw [subtreeAt_cons] at hn
    cases hc : t.children[i]? with
    | none => simp [hc] at hn
    | some c =>
      rw [hc] at hn
      simp only at hn
      cases t with
      | mk id g hid cs =>
        simp only at hc
        rw [hiddenAt_cons_some h i p id g hid cs gs c hc]
        exact ih c n gs hn

/-- The drawable at the position of the call is, after the call, what the call
on it alone returns. -/
theorem hiddenAt_subtree (h : Bool) (p : List Nat) :
    ∀ (t n : CommonDrawable) (gs : Groups), t.subtreeAt p = some n →
      (CommonDrawable.hiddenAt h p t gs).1.subtreeAt p = some (n.hidden h gs).1 := by
  induction p with
  | nil =>
    intro t n gs hn
    simp only [subtreeAt_nil, Option.some.injEq] at hn
    rw [hiddenAt_nil, hn, subtreeAt_nil]
  | cons i p ih =>
    intro t n gs hn
    rw [subtreeAt_cons] at hn
    cases hc : t.children[i]? with
    | none => simp [hc] at hn
    | some c =>
      rw [hc] at hn
      simp only at hn
      cases t with
      | mk id g hid cs =>
        simp only at hc
        rw [hiddenAt_cons_some h i p id g hid cs gs c hc, subtreeAt_cons]
        have hlt : i < cs.length := by
          rcases List.getElem?_eq_some.mp hc with ⟨hlt, _⟩
          exact hlt
        simp only [List.getElem?_set_self hlt]
        exact ih c n gs hn

theorem subtreeAt_descendants (p : List Nat) :
    ∀ (t n : CommonDrawable), t.subtreeAt p = some n →
      ∀ d ∈ n.descendants, d ∈ t.descendants := by
  induction p with
  | nil =>
    intro t n hn d hd
    simp only [subtreeAt_nil, Option.some.injEq] at hn
    rw [hn]
    exact hd
  | cons i p ih =>
    intro t n hn d hd
    rw [subtreeAt_cons] at hn
    cases hc : t.children[i]? with
    | none => simp [hc] at hn
    | some c =>
      rw [hc] at hn
      simp only at hn
      cases t with
      | mk id g hid cs =>
        simp only at hc
        obtain ⟨l1, l2, h1, -⟩ := split_at_child cs i c hc
        rw [descendants_mk, h1, descendantsEach_append, descendantsEach_cons]
        have := ih c n hn d hd
        simp [this]

theorem subtreeAt_keys (p : List Nat) (t n : CommonDrawable) (hn : t.subtreeAt p = some n)
    (k : GroupId) (x : Nat) (hk : (k, x) ∈ n.keys) : (k, x) ∈ t.keys := by
  obtain ⟨d, hd, hkey⟩ := List.mem_map.mp hk
  exact List.mem_map.mpr ⟨d, subtreeAt_descendants p t n hn d hd, hkey⟩

theorem hiddenAt_frame (h : Bool) (p : List Nat) (t : CommonDrawable) (gs : Groups)
    (k : GroupId) (x : Nat) (hk : (k, x) ∉ t.keys) :
    (x ∈ (CommonDrawable.hiddenAt h p t gs).2 k ↔ x ∈ gs k) := by
  cases hn : t.subtreeAt p with
  | none => rw [hiddenAt_none h p t gs hn]
  | some n =>
    rw [hiddenAt_groups h p t n gs hn]
    exact hidden_frame h n gs k x (fun hx => hk (subtreeAt_keys p t n hn k x hx))

theorem hiddenAt_nodup (h : Bool) (p : List Nat) (t : CommonDrawable) (gs : Groups)
    (hnd : ∀ k, (gs k).Nodup) : ∀ k, ((CommonDrawable.hiddenAt h p t gs).2 k).Nodup := by
  cases hn : t.subtreeAt p with
  | none =>
    rw [hiddenAt_none h p t gs hn]
    exact hnd
  | some n =>
    rw [hiddenAt_groups h p t n gs hn]
    exact hidden_nodup h n gs hnd

theorem hiddenAt_keys (h : Bool) (p : List Nat) :
    ∀ (t : CommonDrawable) (gs : Groups), (CommonDrawable.hiddenAt h p t gs).1.keys = t.keys := by
  induction p with
  | nil =>
    intro t gs
    rw [hiddenAt_nil, hidden_keys]
  | cons i p ih =>
    intro t gs
    cases hc : t.children[i]? with
    | none => rw [hiddenAt_cons_none h i p t gs hc]
    | some c =>
      cases t with
      | mk id g hid cs =>
        simp only at hc
        rw [hiddenAt_cons_some h i p id g hid cs gs c hc]
        obtain ⟨l1, l2, h1, h2⟩ := split_at_child cs i c hc
        simp only
        rw [h2, keys_mk, keys_mk, h1, keysEach_append, keysEach_append, keysEach_cons,
          keysEach_cons, ih c gs]

/-- Flags that agree with the groups still agree after a call of `hidden` on
any drawable of the tree. -/
theorem hiddenAt_agrees (h : Bool) (p : List Nat) :
    ∀ (t : CommonDrawable) (gs : Groups), (t.keys.map Prod.snd).Nodup →
      (∀ k, (gs k).Nodup) → gs.Agrees t →
      (CommonDrawable.hiddenAt h p t gs).2.Agrees (CommonDrawable.hiddenAt h p t gs).1 := by
  induction p with
  | nil =>
    intro t gs hnd hn hag
    rw [hiddenAt_nil]
    exact hidden_agrees h t gs hnd hn hag
  | cons i p ih =>
    intro t gs hnd hn hag
    cases hc : t.children[i]? with
    | none =>
      rw [hiddenAt_cons_none h i p t gs hc]
      exact hag
    | some c =>
      cases t with
      | mk id g hid cs =>
        simp only at hc
        rw [hiddenAt_cons_some h i p id g hid cs gs c hc]
        obtain ⟨l1, l2, h1, h2⟩ := split_at_child cs i c hc
        simp only
        rw [h2]
        subst h1
        rw [keys_mk, keysEach_append, keysEach_cons, List.map_cons, List.map_append,
          List.map_append, List.nodup_cons, List.nodup_append, List.nodup_append] at hnd
        obtain ⟨hroot, -, ⟨hndc, -, hdcb⟩, hdac⟩ := hnd
        simp only at hroot
        have hagc : gs.Agrees c := by
          intro d hd
          apply hag d
          rw [descendants_mk, descendantsEach_append, descendantsEach_cons]
          simp [hd]
        have hc1 := ih c gs hndc hn hagc
        have hold : ∀ d, d ∈ CommonDrawable.descendants ⟨id, g, hid, l1 ++ c :: l2⟩ →
            (d.group_, d.id) ∉ c.keys →
            (d.hidden_ = true ↔ ¬ (CommonDrawable.hiddenAt h p c gs).2.lists d) := by
          intro d hd hk
          have := hag d hd
          unfold Groups.lists at this ⊢
          rw [hiddenAt_frame h p c gs d.group_ d.id hk]
          exact this
        intro d hd
        rw [descendants_mk, List.mem_cons, descendantsEach_append, List.mem_append,
          descendantsEach_cons, List.mem_append] at hd
        rcases hd with hd | hd | hd | hd
        · subst hd
          have hk : (g, id) ∉ c.keys := by
            intro hk
            apply hroot
            simp [snd_mem_of_mem hk]
          have := hold ⟨id, g, hid, l1 ++ c :: l2⟩ (by rw [descendants_mk]; simp) hk
          exact this
        · have hk : (d.group_, d.id) ∉ c.keys := by
            intro hk
            exact hdac (snd_mem_of_mem (key_mem_keysEach hd))
              (List.mem_append_left _ (snd_mem_of_mem hk))
          apply hold d _ hk
          rw [descendants_mk, descendantsEach_append]
          simp [hd]
        · exact hc1 d hd
        · have hk : (d.group_, d.id) ∉ c.keys := by
            intro hk
            exact hdcb (snd_mem_of_mem hk) (snd_mem_of_mem (key_mem_keysEach hd))
          apply hold d _ hk
          rw [descendants_mk, descendantsEach_append, descendantsEach_cons]
          simp [hd]

/-- A call of `hidden` keeps a scene well formed. -/
theorem hidden_wellFormed (s : Scene) (p : List Nat) (h : Bool) (hwf : s.WellFormed) :
    (s.hidden p h).WellFormed := by
  obtain ⟨hids, hn, hag⟩ := hwf
  rw [ids_eq_keys] at hids
  unfold Scene.hidden
  refine ⟨?_, ?_, ?_⟩
  · rw [ids_eq_keys]
    simp only
    rw [hiddenAt_keys]
    exact hids
  · exact hiddenAt_nodup h p s.root s.groups hn
  · exact hiddenAt_agrees h p s.root s.groups hids hn hag

theorem initial_wellFormed (s : Scene) (hi : s.Initial) : s.WellFormed := by
  obtain ⟨hids, hn, hall⟩ := hi
  refine ⟨hids, hn, ?_⟩
  intro d hd
  obtain ⟨hv, hl⟩ := hall d hd
  simp [hv, hl]

/-- Every reachable scene is well formed. -/
theorem reachable_wellFormed (s : Scene) (hr : s.Reachable) : s.WellFormed := by
  induction hr with
  | init s hi => exact initial_wellFormed s hi
  | step s p h _ ih => exact hidden_wellFormed s p h ih

/-! ### Flags of a whole subtree -/

theorem allFlags_mk (b : Bool) (id : Nat) (g : GroupId) (hid : Bool)
    (cs : List CommonDrawable) :
    CommonDrawable.allFlags b ⟨id, g, hid, cs⟩
      = ((hid == b) && CommonDrawable.allFlagsEach b cs) := by
  simp [CommonDrawable.allFlags]

theorem allFlagsEach_cons (b : Bool) (c : CommonDrawable) (cs : List CommonDrawable) :
    CommonDrawable.allFlagsEach b (c :: cs)
      = (c.allFlags b && CommonDrawable.allFlagsEach b cs) := by
  simp [CommonDrawable.allFlagsEach]

theorem allFlagsEach_nil (b : Bool) : CommonDrawable.allFlagsEach b [] = true := by
  simp [CommonDrawable.allFlagsEach]

theorem allFlagsEach_iff (b : Bool) (cs : List CommonDrawable) :
    CommonDrawable.allFlagsEach b cs = true ↔ ∀ c ∈ cs, c.allFlags b = true := by
  induction cs with
  | nil => simp [allFlagsEach_nil]
  | cons c cs ih => simp [allFlagsEach_cons, ih]

/-- The check `allFlags b` says that every drawable of the tree has flag `b`. -/
theorem allFlags_iff (b : Bool) (t : CommonDrawable) :
    t.allFlags b = true ↔ ∀ d ∈ t.descendants, d.hidden_ = b := by
  induction t using CommonDrawable.induct with
  | step id g hid cs ih =>
    have hEach : ∀ l : List CommonDrawable,
        (∀ c ∈ l, (c.allFlags b = true ↔ ∀ d ∈ c.descendants, d.hidden_ = b)) →
        (CommonDrawable.allFlagsEach b l = true ↔
          ∀ d ∈ CommonDrawable.descendantsEach l, d.hidden_ = b) := by
      intro l
      induction l with
      | nil =>
        intro _
        simp [allFlagsEach_nil, descendantsEach_nil]
      | cons c l ihl =>
        intro hl
        rw [allFlagsEach_cons, Bool.and_eq_true, hl c (List.mem_cons_self _ _),
          ihl (fun c1 hc1 => hl c1 (List.mem_cons_of_mem _ hc1)), descendantsEach_cons]
        simp only [List.mem_append]
        constructor
        · rintro ⟨h1, h2⟩ d (hd | hd)
          · exact h1 d hd
          · exact h2 d hd
        · intro hall
          exact ⟨fun d hd => hall d (Or.inl hd), fun d hd => hall d (Or.inr hd)⟩
    rw [allFlags_mk, Bool.and_eq_true, hEach cs ih, descendants_mk]
    simp only [List.mem_cons, beq_iff_eq]
    constructor
    · rintro ⟨h1, h2⟩ d (hd | hd)
      · rw [hd]
        exact h1
      · exact h2 d hd
    · intro hall
      exact ⟨hall _ (Or.inl rfl), fun d hd => hall d (Or.inr hd)⟩

theorem hiddenBelowHidden_mk (id : Nat) (g : GroupId) (hid : Bool) (cs : List CommonDrawable) :
    CommonDrawable.hiddenBelowHidden ⟨id, g, hid, cs⟩
      = ((!hid || CommonDrawable.allFlagsEach true cs) &&
          CommonDrawable.hiddenBelowHiddenEach cs) := by
  simp [CommonDrawable.hiddenBelowHidden]

theorem hiddenBelowHiddenEach_cons (c : CommonDrawable) (cs : List CommonDrawable) :
    CommonDrawable.hiddenBelowHiddenEach (c :: cs)
      = (c.hiddenBelowHidden && CommonDrawable.hiddenBelowHiddenEach cs) := by
  simp [CommonDrawable.hiddenBelowHiddenEach]

/-- After `hidden(h)` the drawable has flag `h`. -/
theorem hidden_flag (h : Bool) (t : CommonDrawable) (gs : Groups) :
    (t.hidden h gs).1.hidden_ = h := by
  cases t with
  | mk id g hid cs =>
    by_cases heq : hid = h
    · rw [hidden_same h _ gs heq]
      exact heq
    · rw [hidden_flip h id g hid cs gs heq]

/-- Where no visible drawable lies below a hidden one, `hidden(true)` leaves
the whole subtree hidden. -/
theorem hidden_true_allFlags (t : CommonDrawable) :
    ∀ gs : Groups, t.hiddenBelowHidden = true → (t.hidden true gs).1.allFlags true = true := by
  induction t using CommonDrawable.induct with
  | step id g hid cs ih =>
    have hEach : ∀ l : List CommonDrawable,
        (∀ c ∈ l, ∀ gs : Groups, c.hiddenBelowHidden = true →
          (c.hidden true gs).1.allFlags true = true) →
        ∀ gs : Groups, CommonDrawable.hiddenBelowHiddenEach l = true →
          CommonDrawable.allFlagsEach true (CommonDrawable.hiddenEach true l gs).1 = true := by
      intro l
      induction l with
      | nil =>
        intro _ gs _
        rw [hiddenEach_nil, allFlagsEach_nil]
      | cons c l ihl =>
        intro hl gs hb
        rw [hiddenBelowHiddenEach_cons, Bool.and_eq_true] at hb
        rw [hiddenEach_cons, allFlagsEach_cons, Bool.and_eq_true]
        exact ⟨hl c (List.mem_cons_self _ _) gs hb.1,
          ihl (fun c1 hc1 => hl c1 (List.mem_cons_of_mem _ hc1)) _ hb.2⟩
    intro gs hb
    rw [hiddenBelowHidden_mk, Bool.and_eq_true] at hb
    cases hid with
    | true =>
      rw [hidden_same true _ gs rfl, allFlags_mk]
      simpa using hb.1
    | false =>
      rw [hidden_flip true id g false cs gs (by decide), allFlags_mk]
      simp only [beq_self_eq_true, Bool.true_and]
      exact hEach cs ih _ hb.2

/-- On a subtree that is entirely visible, `hidden(true)` followed by
`hidden(false)` restores the subtree. -/
theorem hidden_roundtrip_tree (t : CommonDrawable) :
    ∀ gs gs1 : Groups, t.allFlags false = true →
      ((t.hidden true gs).1.hidden false gs1).1 = t := by
  induction t using CommonDrawable.induct with
  | step id g hid cs ih =>
    have hEach : ∀ l : List CommonDrawable,
        (∀ c ∈ l, ∀ gs gs1 : Groups, c.allFlags false = true →
          ((c.hidden true gs).1.hidden false gs1).1 = c) →
        ∀ gs gs1 : Groups, CommonDrawable.allFlagsEach false l = true →
          (CommonDrawable.hiddenEach false (CommonDrawable.hiddenEach true l gs).1 gs1).1
            = l := by
      intro l
      induction l with
      | nil =>
        intro _ gs gs1 _
        rw [hiddenEach_nil, hiddenEach_nil]
      | cons c l ihl =>
        intro hl gs gs1 hb
        rw [allFlagsEach_cons, Bool.and_eq_true] at hb
        rw [hiddenEach_cons, hiddenEach_cons]
        simp only
        rw [hl c (List.mem_cons_self _ _) gs gs1 hb.1,
          ihl (fun c1 hc1 => hl c1 (List.mem_cons_of_mem _ hc1)) _ _ hb.2]
    intro gs gs1 hb
    rw [allFlags_mk, Bool.and_eq_true, beq_iff_eq] at hb
    obtain ⟨hv, hcs⟩ := hb
    subst hv
    rw [hidden_flip true id g false cs gs (by decide)]
    simp only
    rw [hidden_flip false id g true _ gs1 (by decide)]
    simp only
    rw [hEach cs ih _ _ hcs]

theorem hiddenAt_roundtrip_tree (p : List Nat) :
    ∀ (t n : CommonDrawable) (gs gs1 : Groups), t.subtreeAt p = some n →
      n.allFlags false = true →
      (CommonDrawable.hiddenAt false p (CommonDrawable.hiddenAt true p t gs).1 gs1).1 = t := by
  induction p with
  | nil =>
    intro t n gs gs1 hn hb
    simp only [subtreeAt_nil, Option.some.injEq] at hn
    subst hn
    rw [hiddenAt_nil, hiddenAt_nil]
    exact hidden_roundtrip_tree t gs gs1 hb
  | cons i p ih =>
    intro t n gs gs1 hn hb
    rw [subtreeAt_cons] at hn
    cases hc : t.children[i]? with
    | none => simp [hc] at hn
    | some c =>
      rw [hc] at hn
      simp only at hn
      cases t with
      | mk id g hid cs =>
        simp only at hc
        have hlt : i < cs.length := by
          rcases List.getElem?_eq_some.mp hc with ⟨hlt, _⟩
          exact hlt
        rw [hiddenAt_cons_some true i p id g hid cs gs c hc]
        simp only
        rw [hiddenAt_cons_some false i p id g hid _ gs1 (CommonDrawable.hiddenAt true p c gs).1
          (List.getElem?_set_self hlt)]
        simp only
        rw [ih c n gs gs1 hn hb, List.set_set, set_same_child cs i c hc]

theorem hiddenAt_same (h : Bool) (p : List Nat) :
    ∀ (t n : CommonDrawable) (gs : Groups), t.subtreeAt p = some n → n.hidden_ = h →
      CommonDrawable.hiddenAt h p t gs = (t, gs) := by
  induction p with
  | nil =>
    intro t n gs hn hf
    simp only [subtreeAt_nil, Option.some.injEq] at hn
    subst hn
    rw [hiddenAt_nil]
    exact hidden_same h t gs hf
  | cons i p ih =>
    intro t n gs hn hf
    rw [subtreeAt_cons] at hn
    cases hc : t.children[i]? with
    | none => simp [hc] at hn
    | some c =>
      rw [hc] at hn
      simp only at hn
      cases t with
      | mk id g hid cs =>
        simp only at hc
        rw [hiddenAt_cons_some h i p id g hid cs gs c hc, ih c n gs hn hf]
        simp only
        rw [set_same_child cs i c hc]

/-! ### The claims on the cascade -/

/-- C5 (amended): in every scene reachable from the all-visible initial scene
by calls of `hidden` on arbitrary drawables, calling `hidden(true)` on a visible
drawable in whose subtree no visible drawable lies below a hidden one leaves
that drawable and every drawable of its subtree hidden and absent from its
draw group (the drawables of the subtree are the same as before). -/
theorem hidden_true_cascades (s : Scene) (hr : s.Reachable) (p : List Nat)
    (n : CommonDrawable) (hn : s.root.subtreeAt p = some n) (_hvis : n.hidden_ = false)
    (hbelow : n.hiddenBelowHidden = true) :
    ∃ n1, (s.hidden p true).root.subtreeAt p = some n1 ∧ n1.keys = n.keys ∧
      ∀ d ∈ n1.descendants, d.hidden_ = true ∧ ¬ (s.hidden p true).groups.lists d := by
  have hwf := hidden_wellFormed s p true (reachable_wellFormed s hr)
  have hsub : (s.hidden p true).root.subtreeAt p = some (n.hidden true s.groups).1 :=
    hiddenAt_subtree true p s.root n s.groups hn
  refine ⟨(n.hidden true s.groups).1, hsub, hidden_keys true n s.groups, ?_⟩
  intro d hd
  have hflag : d.hidden_ = true :=
    (allFlags_iff true _).mp (hidden_true_allFlags n s.groups hbelow) d hd
  exact ⟨hflag, (hwf.2.2 d (subtreeAt_descendants p _ _ hsub d hd)).mp hflag⟩

/-- C6 (amended): in every reachable scene, for a visible drawable whose
subtree is entirely visible, `hidden(true)` followed by `hidden(false)` on it
restores the scene: every drawable has the flag it had, and every group lists
the drawables it listed. -/
theorem hidden_true_false_restores (s : Scene) (hr : s.Reachable) (p : List Nat)
    (n : CommonDrawable) (hn : s.root.subtreeAt p = some n)
    (hvis : n.allFlags false = true) :
    ((s.hidden p true).hidden p false).root = s.root ∧
    ∀ k x, (x ∈ ((s.hidden p true).hidden p false).groups k ↔ x ∈ s.groups k) := by
  have hwf := reachable_wellFormed s hr
  have hwf2 := hidden_wellFormed _ p false (hidden_wellFormed s p true hwf)
  have hroot : ((s.hidden p true).hidden p false).root = s.root :=
    hiddenAt_roundtrip_tree p s.root n s.groups _ hn hvis
  refine ⟨hroot, ?_⟩
  intro k x
  by_cases hk : (k, x) ∈ n.keys
  · obtain ⟨d, hd, hkey⟩ := List.mem_map.mp hk
    have hk1 : d.group_ = k := congrArg Prod.fst hkey
    have hx1 : d.id = x := congrArg Prod.snd hkey
    have hdr : d ∈ s.root.descendants := subtreeAt_descendants p _ _ hn d hd
    have hdv : d.hidden_ = false := (allFlags_iff false n).mp hvis d hd
    have h1 := hwf.2.2 d hdr
    have h2 := hwf2.2.2 d (by rw [hroot]; exact hdr)
    unfold Groups.lists at h1 h2
    rw [hk1, hx1] at h1 h2
    simp only [hdv, Bool.false_eq_true, false_iff, not_not] at h1 h2
    exact ⟨fun _ => h1, fun _ => h2⟩
  · have hsub : (s.hidden p true).root.subtreeAt p = some (n.hidden true s.groups).1 :=
      hiddenAt_subtree true p s.root n s.groups hn
    have hg1 : (s.hidden p true).groups = (n.hidden true s.groups).2 :=
      hiddenAt_groups true p s.root n s.groups hn
    have hg2 : ((s.hidden p true).hidden p false).groups
        = ((n.hidden true s.groups).1.hidden false (s.hidden p true).groups).2 :=
      hiddenAt_groups false p _ _ _ hsub
    rw [hg2, hidden_frame false _ _ k x (by rw [hidden_keys]; exact hk), hg1,
      hidden_frame true n _ k x hk]

/-- C7: calling `hidden(h)` on a drawable whose flag already equals `h`
changes nothing, neither a flag nor a group, in any scene whatever; and
calling `hidden(h)` twice in a row on a drawable yields the scene that calling
it once yields. -/
theorem hidden_redundant (s : Scene) (p : List Nat) (h : Bool) :
    (∀ n, s.root.subtreeAt p = some n → n.hidden_ = h → s.hidden p h = s) ∧
    (s.hidden p h).hidden p h = s.hidden p h := by
  have hsame : ∀ (s1 : Scene) n, s1.root.subtreeAt p = some n → n.hidden_ = h →
      s1.hidden p h = s1 := by
    intro s1 n hn hf
    unfold Scene.hidden
    rw [hiddenAt_same h p s1.root n s1.groups hn hf]
  refine ⟨hsame s, ?_⟩
  cases hn : s.root.subtreeAt p with
  | none =>
    have : s.hidden p h = s := by
      unfold Scene.hidden
      rw [hiddenAt_none h p s.root s.groups hn]
    rw [this, this]
  | some n =>
    exact hsame (s.hidden p h) (n.hidden h s.groups).1
      (hiddenAt_subtree h p s.root n s.groups hn) (hidden_flag h n s.groups)

theorem chainScene_initial : chainScene.Initial := by
  refine ⟨by decide, ?_, ?_⟩
  swap
  · show ∀ d ∈ chainScene.root.descendants,
      d.hidden_ = false ∧ d.id ∈ chainScene.groups d.group_
    decide
  intro k
  by_cases hk : k = 0
  · simp [chainScene, hk]
  · simp [chainScene, hk]

theorem hidden_true_cascades_witness :
    ∃ n1, (chainScene.hidden [0] true).root.subtreeAt [0] = some n1 ∧
      n1.keys = CommonDrawable.keys ⟨1, 0, false, [⟨2, 0, false, []⟩]⟩ ∧
      ∀ d ∈ n1.descendants,
        d.hidden_ = true ∧ ¬ (chainScene.hidden [0] true).groups.lists d :=
  hidden_true_cascades chainScene (Scene.Reachable.init _ chainScene_initial) [0]
    ⟨1, 0, false, [⟨2, 0, false, []⟩]⟩ rfl rfl rfl

/-- C5 as stated fails: hide drawable 1 of the chain, show its child 2, then
call `hidden(true)` on the visible root 0: the cascade stops at the hidden
drawable 1, and drawable 2 stays visible and listed in group 0. -/
theorem hidden_true_stops_at_hidden_child :
    chainSceneShownBelowHidden.Reachable ∧
    chainSceneShownBelowHidden.root.hidden_ = false ∧
    ((chainSceneShownBelowHidden.hidden [] true).root.subtreeAt [0, 0]).map
        CommonDrawable.hidden_ = some false ∧
    ((chainSceneShownBelowHidden.hidden [] true).root.subtreeAt [0, 0]).map
        CommonDrawable.id = some 2 ∧
    (chainSceneShownBelowHidden.hidden [] true).groups 0 = [2] :=
  ⟨Scene.Reachable.step _ [0, 0] false
      (Scene.Reachable.step _ [0] true (Scene.Reachable.init _ chainScene_initial)),
    by decide, by decide, by decide, by decide⟩

theorem hidden_true_false_restores_witness :
    ((chainScene.hidden [0] true).hidden [0] false).root = chainScene.root ∧
    ∀ k x, (x ∈ ((chainScene.hidden [0] true).hidden [0] false).groups k
      ↔ x ∈ chainScene.groups k) :=
  hidden_true_false_restores chainScene (Scene.Reachable.init _ chainScene_initial) [0]
    ⟨1, 0, false, [⟨2, 0, false, []⟩]⟩ rfl rfl

/-- C6 as stated fails: after hiding drawable 1 of the chain (which hides its
child 2), the root 0 is visible and group 0 lists only 0; `hidden(true)` then
`hidden(false)` on the root leaves all three drawables visible and listed, so
drawables 1 and 2 are restored although the hide did not remove them. -/
theorem hidden_false_shows_more_than_hidden :
    chainSceneChildHidden.Reachable ∧
    chainSceneChildHidden.root.hidden_ = false ∧
    (chainSceneChildHidden.root.subtreeAt [0]).map CommonDrawable.hidden_ = some true ∧
    chainSceneChildHidden.groups 0 = [0] ∧
    (chainSceneChildHidden.hidden [] true).groups 0 = [] ∧
    ((((chainSceneChildHidden.hidden [] true).hidden [] false).root.subtreeAt [0]).map
        CommonDrawable.hidden_ = some false) ∧
    ((chainSceneChildHidden.hidden [] true).hidden [] false).groups 0 = [0, 1, 2] :=
  ⟨Scene.Reachable.step _ [0] true (Scene.Reachable.init _ chainScene_initial),
    by decide, by decide, by decide, by decide, by decide, by decide⟩

theorem hidden_redundant_witness :
    (∀ n, chainSceneChildHidden.root.subtreeAt [0] = some n → n.hidden_ = true →
      chainSceneChildHidden.hidden [0] true = chainSceneChildHidden) ∧
    (chainSceneChildHidden.hidden [0] true).hidden [0] true
      = chainSceneChildHidden.hidden [0] true :=
  hidden_redundant chainSceneChildHidden [0] true

/-! ## Arrows -/

theorem length_eq_zero_iff (start end_ : Vector3 ℝ) :
    Vector3.length Real.sqrt (Vector3.sub end_ start) = 0 ↔ start = end_ := by
  obtain ⟨a, b, c⟩ := start
  obtain ⟨x, y, z⟩ := end_
  simp only [Vector3.length, Vector3.dot, Vector3.sub, Vector3.mk.injEq]
  rw [Real.sqrt_eq_zero']
  constructor
  · intro h
    have hx : x - a = 0 := by
      nlinarith [sq_nonneg (x - a), sq_nonneg (y - b), sq_nonneg (z - c)]
    have hy : y - b = 0 := by
      nlinarith [sq_nonneg (x - a), sq_nonneg (y - b), sq_nonneg (z - c)]
    have hz : z - c = 0 := by
      nlinarith [sq_nonneg (x - a), sq_nonneg (y - b), sq_nonneg (z - c)]
    exact ⟨by linarith, by linarith, by linarith⟩
  · rintro ⟨h1, h2, h3⟩
    subst h1 h2 h3
    simp

/-- The draw calls of `drawArrow` for an arrow of non-zero length. -/
theorem drawArrow_eq (start end_ : Vector3 ℝ) (shaft_diam head_diam head_len : ℝ)
    (color : Color4) (L h : ℝ) (hL : Vector3.length Real.sqrt (Vector3.sub end_ start) = L)
    (hh : (if head_len ≥ L then L else head_len) = h) (h0 : L ≠ 0) :
    ∃ normal theta axis,
      drawArrow Real.sqrt Real.arccos start end_ shaft_diam head_diam head_len color =
        (if L - h ≠ 0 ∧ shaft_diam ≠ 0 then
          [shaftDraw start normal (L - h) shaft_diam theta axis color] else []) ++
        (if h ≠ 0 ∧ head_diam ≠ 0 then
          [headDraw start normal (L - h) h head_diam theta axis color] else []) := by
  unfold drawArrow
  simp only [hL, h0, if_false, hh]
  exact ⟨_, _, _, rfl⟩

theorem shaftDraw_length (start normal : Vector3 ℝ) (shaft_len shaft_diam theta : ℝ)
    (axis : Vector3 ℝ) (color : Color4) (hd : shaft_diam ≠ 0) :
    (shaftDraw start normal shaft_len shaft_diam theta axis color).length = shaft_len := by
  unfold shaftDraw ArrowDraw.length
  simp only
  field_simp

theorem headDraw_length (start normal : Vector3 ℝ) (shaft_len head_len head_diam theta : ℝ)
    (axis : Vector3 ℝ) (color : Color4) (hd : head_diam ≠ 0) :
    (headDraw start normal shaft_len head_len head_diam theta axis color).length
      = head_len := by
  unfold headDraw ArrowDraw.length
  simp only
  field_simp

/-- C8 (amended): over the reals, with `L = |end - start|` and `h = L` if
`head_len >= L`, else `head_len`: `drawArrow` issues no draw call when
`start = end`; otherwise the parts it draws are, in order, the shaft exactly
when `L - h != 0` and `shaft_diam != 0`, and the head exactly when `h != 0` and
`head_diam != 0`, nothing else, the shaft with length `L - h` and the head with
length `h`.  In particular, when `head_len > L` the shaft is omitted and
nothing but the head, with length `L`, is drawn; with `start != end` and
`head_diam != 0` the head is drawn, as the one draw call. -/
theorem drawArrow_parts (start end_ : Vector3 ℝ) (shaft_diam head_diam head_len : ℝ)
    (color : Color4) :
    (start = end_ →
      drawArrow Real.sqrt Real.arccos start end_ shaft_diam head_diam head_len color = []) ∧
    (start ≠ end_ →
      (drawArrow Real.sqrt Real.arccos start end_ shaft_diam head_diam head_len color).map
          ArrowDraw.part =
        (if Vector3.length Real.sqrt (Vector3.sub end_ start)
              - (if head_len ≥ Vector3.length Real.sqrt (Vector3.sub end_ start)
                  then Vector3.length Real.sqrt (Vector3.sub end_ start) else head_len) ≠ 0
            ∧ shaft_diam ≠ 0 then [ArrowPart.shaft] else []) ++
        (if (if head_len ≥ Vector3.length Real.sqrt (Vector3.sub end_ start)
                then Vector3.length Real.sqrt (Vector3.sub end_ start) else head_len) ≠ 0
            ∧ head_diam ≠ 0 then [ArrowPart.head] else [])) ∧
    (∀ d ∈ drawArrow Real.sqrt Real.arccos start end_ shaft_diam head_diam head_len color,
      (d.part = .shaft → d.length = Vector3.length Real.sqrt (Vector3.sub end_ start)
        - (if head_len ≥ Vector3.length Real.sqrt (Vector3.sub end_ start)
            then Vector3.length Real.sqrt (Vector3.sub end_ start) else head_len)) ∧
      (d.part = .head → d.length =
        (if head_len ≥ Vector3.length Real.sqrt (Vector3.sub end_ start)
          then Vector3.length Real.sqrt (Vector3.sub end_ start) else head_len))) ∧
    (head_len > Vector3.length Real.sqrt (Vector3.sub end_ start) →
      (∀ d ∈ drawArrow Real.sqrt Real.arccos start end_ shaft_diam head_diam head_len color,
        d.part = .head ∧ d.length = Vector3.length Real.sqrt (Vector3.sub end_ start)) ∧
      (start ≠ end_ → head_diam ≠ 0 →
        ∃ d, drawArrow Real.sqrt Real.arccos start end_ shaft_diam head_diam head_len color
            = [d] ∧
          d.part = .head ∧ d.length = Vector3.length Real.sqrt (Vector3.sub end_ start))) := by
  have hz := length_eq_zero_iff start end_
  generalize hL : Vector3.length Real.sqrt (Vector3.sub end_ start) = L at hz ⊢
  generalize hh : (if head_len ≥ L then L else head_len) = h
  have hnil : L = 0 →
      drawArrow Real.sqrt Real.arccos start end_ shaft_diam head_diam head_len color = [] := by
    intro h0
    unfold drawArrow
    simp [hL, h0]
  have hmem : ∀ d ∈ drawArrow Real.sqrt Real.arccos start end_ shaft_diam head_diam head_len
      color, (d.part = .shaft → d.length = L - h) ∧ (d.part = .head → d.length = h) := by
    intro d hd
    by_cases h0 : L = 0
    · rw [hnil h0] at hd
      cases hd
    · obtain ⟨normal, theta, axis, heq⟩ := drawArrow_eq start end_ shaft_diam head_diam
        head_len color L h hL hh h0
      rw [heq, List.mem_append] at hd
      rcases hd with hd | hd
      · by_cases hc : L - h ≠ 0 ∧ shaft_diam ≠ 0
        · rw [if_pos hc, List.mem_singleton] at hd
          subst hd
          exact ⟨fun _ => shaftDraw_length _ _ _ _ _ _ _ hc.2, fun hp => nomatch hp⟩
        · rw [if_neg hc] at hd
          cases hd
      · by_cases hc : h ≠ 0 ∧ head_diam ≠ 0
        · rw [if_pos hc, List.mem_singleton] at hd
          subst hd
          exact ⟨(fun hp => nomatch hp), fun _ => headDraw_length _ _ _ _ _ _ _ _ hc.2⟩
        · rw [if_neg hc] at hd
          cases hd
  have hparts : start ≠ end_ →
      (drawArrow Real.sqrt Real.arccos start end_ shaft_diam head_diam head_len color).map
          ArrowDraw.part =
        (if L - h ≠ 0 ∧ shaft_diam ≠ 0 then [ArrowPart.shaft] else []) ++
        (if h ≠ 0 ∧ head_diam ≠ 0 then [ArrowPart.head] else []) := by
    intro hne
    have h0 : L ≠ 0 := fun h => hne (hz.mp h)
    obtain ⟨normal, theta, axis, heq⟩ := drawArrow_eq start end_ shaft_diam head_diam
      head_len color L h hL hh h0
    rw [heq, List.map_append]
    congr 1
    · by_cases hc : L - h ≠ 0 ∧ shaft_diam ≠ 0
      · rw [if_pos hc, if_pos hc]
        rfl
      · rw [if_neg hc, if_neg hc]
        rfl
    · by_cases hc : h ≠ 0 ∧ head_diam ≠ 0
      · rw [if_pos hc, if_pos hc]
        rfl
      · rw [if_neg hc, if_neg hc]
        rfl
  refine ⟨fun he => hnil (hz.mpr he), hparts, hmem, ?_⟩
  intro hgt
  have hhL : h = L := by
    rw [← hh]
    exact if_pos (le_of_lt hgt)
  have hhead : ∀ d ∈ drawArrow Real.sqrt Real.arccos start end_ shaft_diam head_diam head_len
      color, d.part = .head ∧ d.length = L := by
    intro d hd
    have hdp : d.part = .head := by
      cases hp : d.part with
      | head => rfl
      | shaft =>
        exfalso
        by_cases h0 : L = 0
        · rw [hnil h0] at hd
          cases hd
        · have hne : start ≠ end_ := fun he => h0 (hz.mpr he)
          have hin : d.part ∈ (drawArrow Real.sqrt Real.arccos start end_ shaft_diam
              head_diam head_len color).map ArrowDraw.part := List.mem_map.mpr ⟨d, hd, rfl⟩
          rw [hparts hne, hhL, hp] at hin
          simp only [sub_self, ne_eq, not_true_eq_false, false_and, if_false,
            List.nil_append] at hin
          split at hin
          · simp at hin
          · cases hin
    exact ⟨hdp, by rw [(hmem d hd).2 hdp, hhL]⟩
  refine ⟨hhead, ?_⟩
  intro hne hdiam
  have h0 : L ≠ 0 := fun h => hne (hz.mp h)
  have hp := hparts hne
  rw [hhL] at hp
  simp only [sub_self, ne_eq, not_true_eq_false, false_and, if_false, List.nil_append, h0,
    hdiam, not_false_eq_true, and_self, if_true] at hp
  cases hl : drawArrow Real.sqrt Real.arccos start end_ shaft_diam head_diam head_len color with
  | nil =>
    rw [hl] at hp
    simp at hp
  | cons d rest =>
    rw [hl] at hp hhead
    simp only [List.map_cons, List.cons.injEq, List.map_eq_nil_iff] at hp
    obtain ⟨-, hrest⟩ := hp
    subst hrest
    exact ⟨d, rfl, hhead d (List.mem_cons_self _ _)⟩

theorem drawArrow_parts_witness :
    drawArrow Real.sqrt Real.arccos ⟨0, 0, 0⟩ ⟨0, 0, 0⟩ 1 1 2 white = [] ∧
    ∃ d, drawArrow Real.sqrt Real.arccos ⟨0, 0, 0⟩ ⟨0, 1, 0⟩ 1 1 2 white = [d] ∧
      d.part = .head ∧ d.length = 1 := by
  have hL : Vector3.length Real.sqrt (Vector3.sub ⟨0, 1, 0⟩ ⟨0, 0, 0⟩) = 1 := by
    simp [Vector3.length, Vector3.dot, Vector3.sub]
  have hne : (⟨0, 0, 0⟩ : Vector3 ℝ) ≠ ⟨0, 1, 0⟩ := by
    intro h
    have := congrArg Vector3.y h
    norm_num at this
  have hgt : (2 : ℝ) > Vector3.length Real.sqrt (Vector3.sub ⟨0, 1, 0⟩ ⟨0, 0, 0⟩) := by
    rw [hL]
    norm_num
  obtain ⟨d, h1, h2, h3⟩ :=
    ((drawArrow_parts ⟨0, 0, 0⟩ ⟨0, 1, 0⟩ 1 1 2 white).2.2.2 hgt).2 hne one_ne_zero
  exact ⟨(drawArrow_parts ⟨0, 0, 0⟩ ⟨0, 0, 0⟩ 1 1 2 white).1 rfl, d, h1, h2, by rw [h3, hL]⟩

/-- C8 as stated fails in its last sentence: with `head_len = 2 > L = 1`,
`start != end` and `head_diam = 0`, `drawArrow` draws nothing, so no head is
drawn. -/
theorem drawArrow_no_head_without_diameter :
    (2 : ℝ) > Vector3.length Real.sqrt (Vector3.sub ⟨0, 1, 0⟩ ⟨0, 0, 0⟩) ∧
    drawArrow Real.sqrt Real.arccos ⟨0, 0, 0⟩ ⟨0, 1, 0⟩ 1 0 2 white = [] := by
  have hL : Vector3.length Real.sqrt (Vector3.sub ⟨0, 1, 0⟩ ⟨0, 0, 0⟩) = 1 := by
    simp [Vector3.length, Vector3.dot, Vector3.sub]
  refine ⟨by rw [hL]; norm_num, ?_⟩
  obtain ⟨normal, theta, axis, heq⟩ := drawArrow_eq ⟨0, 0, 0⟩ ⟨0, 1, 0⟩ 1 0 2 white 1 1 hL
    (by norm_num) (by norm_num)
  rw [heq]
  simp

/-! ### The invariant of `hidden` -/

theorem hiddenCalls_same (h : Bool) (t : CommonDrawable) (gs : Groups) (heq : t.hidden_ = h) :
    t.hiddenCalls h gs = [] := by
  cases t with
  | mk id g hid cs =>
    simp only at heq
    simp [CommonDrawable.hiddenCalls, heq]

theorem hiddenCalls_flip (h : Bool) (id : Nat) (g : GroupId) (hid : Bool)
    (cs : List CommonDrawable) (gs : Groups) (hne : hid ≠ h) :
    CommonDrawable.hiddenCalls h ⟨id, g, hid, cs⟩ gs =
      (if h then GroupCall.remove g id (decide (id ∈ gs g))
        else GroupCall.add g id (decide (id ∈ gs g))) ::
        CommonDrawable.hiddenCallsEach h cs (if h then gs.remove g id else gs.add g id) := by
  simp [CommonDrawable.hiddenCalls, hne]

theorem hiddenCallsEach_nil (h : Bool) (gs : Groups) :
    CommonDrawable.hiddenCallsEach h [] gs = [] := by
  simp [CommonDrawable.hiddenCallsEach]

theorem hiddenCallsEach_cons (h : Bool) (c : CommonDrawable) (cs : List CommonDrawable)
    (gs : Groups) :
    CommonDrawable.hiddenCallsEach h (c :: cs) gs =
      c.hiddenCalls h gs ++ CommonDrawable.hiddenCallsEach h cs (c.hidden h gs).2 := by
  simp [CommonDrawable.hiddenCallsEach]

/-- Where the flags agree with the groups, every group call `hidden` makes
removes a listed drawable or adds an unlisted one. -/
theorem hiddenCalls_expected (h : Bool) (t : CommonDrawable) :
    ∀ gs : Groups, (t.keys.map Prod.snd).Nodup → (∀ k, (gs k).Nodup) → gs.Agrees t →
      ∀ c ∈ t.hiddenCalls h gs, c.expected = true := by
  induction t using CommonDrawable.induct with
  | step id g hid cs ih =>
    have hEach : ∀ (l : List CommonDrawable),
        (∀ c ∈ l, ∀ gs : Groups, (c.keys.map Prod.snd).Nodup → (∀ k, (gs k).Nodup) →
          gs.Agrees c → ∀ x ∈ c.hiddenCalls h gs, x.expected = true) →
        ∀ gs : Groups, ((CommonDrawable.keysEach l).map Prod.snd).Nodup →
          (∀ k, (gs k).Nodup) → gs.AgreesEach l →
          ∀ x ∈ CommonDrawable.hiddenCallsEach h l gs, x.expected = true := by
      intro l
      induction l with
      | nil =>
        intro _ gs _ _ _ x hx
        rw [hiddenCallsEach_nil] at hx
        cases hx
      | cons c l ihl =>
        intro hl gs hnd hn hag
        rw [keysEach_cons, List.map_append, List.nodup_append] at hnd
        obtain ⟨hndc, hndl, hdisj⟩ := hnd
        have hagc : gs.Agrees c := by
          intro d hd
          exact hag d (by rw [descendantsEach_cons]; exact List.mem_append_left _ hd)
        have hagl : (c.hidden h gs).2.AgreesEach l := by
          intro d hd
          have hkey : (d.group_, d.id) ∉ c.keys := by
            intro hk
            exact hdisj (snd_mem_of_mem hk) (snd_mem_of_mem (key_mem_keysEach hd))
          have := hag d (by rw [descendantsEach_cons]; exact List.mem_append_right _ hd)
          unfold Groups.lists at this ⊢
          rw [hidden_frame h c gs d.group_ d.id hkey]
          exact this
        intro x hx
        rw [hiddenCallsEach_cons, List.mem_append] at hx
        rcases hx with hx | hx
        · exact hl c (List.mem_cons_self _ _) gs hndc hn hagc x hx
        · exact ihl (fun c1 hc1 => hl c1 (List.mem_cons_of_mem _ hc1)) (c.hidden h gs).2
            hndl (hidden_nodup h c gs hn) hagl x hx
    intro gs hnd hn hag
    by_cases heq : hid = h
    · intro x hx
      rw [hiddenCalls_same h _ gs heq] at hx
      cases hx
    · rw [keys_mk, List.map_cons, List.nodup_cons] at hnd
      obtain ⟨hid_notin, hndcs⟩ := hnd
      simp only at hid_notin
      have hn0 : ∀ k, ((if h = true then gs.remove g id else gs.add g id) k).Nodup := by
        cases h
        · exact add_nodup gs g id hn
        · exact remove_nodup gs g id hn
      have hag0 : (if h = true then gs.remove g id else gs.add g id).AgreesEach cs := by
        intro d hd
        have hne : (d.group_, d.id) ≠ (g, id) := by
          intro he
          have hx : d.id = id := congrArg Prod.snd he
          exact hid_notin (hx ▸ snd_mem_of_mem (key_mem_keysEach hd))
        have := hag d (by rw [descendants_mk]; exact List.mem_cons_of_mem _ hd)
        unfold Groups.lists at this ⊢
        cases h
        · simp only [Bool.false_eq_true, if_false]
          rw [add_frame gs g id d.group_ d.id hne]
          exact this
        · simp only [if_true]
          rw [remove_frame gs g id d.group_ d.id hne]
          exact this
      have hself := hag ⟨id, g, hid, cs⟩ (by rw [descendants_mk]; exact List.mem_cons_self _ _)
      unfold Groups.lists at hself
      simp only at hself
      intro x hx
      rw [hiddenCalls_flip h id g hid cs gs heq, List.mem_cons] at hx
      rcases hx with hx | hx
      · subst hx
        cases h
        · have hh : hid = true := by
            cases hid
            · exact absurd rfl heq
            · rfl
          have hnot : id ∉ gs g := hself.mp hh
          simp [GroupCall.expected, hnot]
        · have hh : hid = false := by
            cases hid
            · rfl
            · exact absurd rfl heq
          have hin : id ∈ gs g := by
            by_contra hc
            have := hself.mpr hc
            rw [hh] at this
            cases this
          simp [GroupCall.expected, hin]
      · exact hEach cs ih _ hndcs hn0 hag0 x hx

theorem subtreeAt_nodup (p : List Nat) :
    ∀ (t n : CommonDrawable), t.subtreeAt p = some n → (t.keys.map Prod.snd).Nodup →
      (n.keys.map Prod.snd).Nodup := by
  induction p with
  | nil =>
    intro t n hn hnd
    simp only [subtreeAt_nil, Option.some.injEq] at hn
    rw [← hn]
    exact hnd
  | cons i p ih =>
    intro t n hn hnd
    rw [subtreeAt_cons] at hn
    cases hc : t.children[i]? with
    | none => simp [hc] at hn
    | some c =>
      rw [hc] at hn
      simp only at hn
      cases t with
      | mk id g hid cs =>
        simp only at hc
        obtain ⟨l1, l2, h1, -⟩ := split_at_child cs i c hc
        subst h1
        rw [keys_mk, keysEach_append, keysEach_cons, List.map_cons, List.map_append,
          List.map_append, List.nodup_cons, List.nodup_append, List.nodup_append] at hnd
        exact ih c n hn hnd.2.2.1.1

/-- C11: the predicate "a drawable's flag `hidden_` is true exactly when its
draw group does not list it" is an invariant of `CommonDrawable::hidden`: in a
scene whose drawables have distinct identities and whose groups list no feature
twice (both are kept by the call), if the predicate holds for every drawable
before a call `hidden(h)` on any drawable, it holds for every drawable after
it; it holds in the initial all-visible scene; and every group call `hidden`
then makes removes a drawable the group lists or adds one it does not list. -/
theorem hidden_invariant (s : Scene) (p : List Nat) (h : Bool)
    (hids : s.root.ids.Nodup) (hgroups : ∀ k, (s.groups k).Nodup)
    (hag : ∀ d ∈ s.root.descendants, (d.hidden_ = true ↔ d.id ∉ s.groups d.group_)) :
    (∀ d ∈ (s.hidden p h).root.descendants,
      (d.hidden_ = true ↔ d.id ∉ (s.hidden p h).groups d.group_)) ∧
    (s.hidden p h).root.ids.Nodup ∧
    (∀ k, ((s.hidden p h).groups k).Nodup) ∧
    (∀ c ∈ s.hiddenCalls p h, c.expected = true) ∧
    (∀ s0 : Scene, s0.Initial →
      ∀ d ∈ s0.root.descendants, (d.hidden_ = true ↔ d.id ∉ s0.groups d.group_)) := by
  have hwf : (s.hidden p h).WellFormed := hidden_wellFormed s p h ⟨hids, hgroups, hag⟩
  refine ⟨hwf.2.2, hwf.1, hwf.2.1, ?_, fun s0 hi => (initial_wellFormed s0 hi).2.2⟩
  intro c hc
  unfold Scene.hiddenCalls at hc
  cases hn : s.root.subtreeAt p with
  | none =>
    rw [hn] at hc
    cases hc
  | some n =>
    rw [hn] at hc
    simp only at hc
    rw [ids_eq_keys] at hids
    exact hiddenCalls_expected h n s.groups (subtreeAt_nodup p s.root n hn hids) hgroups
      (fun d hd => hag d (subtreeAt_descendants p s.root n hn d hd)) c hc

theorem chainSceneChildHidden_wellFormed : chainSceneChildHidden.WellFormed :=
  reachable_wellFormed _
    (Scene.Reachable.step _ [0] true (Scene.Reachable.init _ chainScene_initial))

theorem hidden_invariant_witness :
    (∀ d ∈ (chainSceneChildHidden.hidden [] true).root.descendants,
      (d.hidden_ = true ↔ d.id ∉ (chainSceneChildHidden.hidden [] true).groups d.group_)) ∧
    (chainSceneChildHidden.hidden [] true).root.ids.Nodup ∧
    (∀ k, ((chainSceneChildHidden.hidden [] true).groups k).Nodup) ∧
    (∀ c ∈ chainSceneChildHidden.hiddenCalls [] true, c.expected = true) ∧
    (∀ s0 : Scene, s0.Initial →
      ∀ d ∈ s0.root.descendants, (d.hidden_ = true ↔ d.id ∉ s0.groups d.group_)) :=
  hidden_invariant chainSceneChildHidden [] true chainSceneChildHidden_wellFormed.1
    chainSceneChildHidden_wellFormed.2.1 chainSceneChildHidden_wellFormed.2.2

/-! ## The group of the drawables `loadMesh` creates -/

theorem addObjectDrawables_group (data : ImportedMesh) (group : GroupId)
    (objectData : ObjectData3D) (ds : List Drawable)
    (h : addObjectDrawables data group objectData = .ok ds) :
    ∀ d ∈ ds, d.group = group := by
  have hone : ∀ x : Drawable, (Except.ok [x] : Except Fault (List Drawable)) = .ok ds → x.group = group →
      ∀ d ∈ ds, d.group = group := by
    intro x he hx d hd
    simp only [Except.ok.injEq] at he
    subst he
    simp only [List.mem_singleton] at hd
    subst hd
    exact hx
  have hnil : (Except.ok [] : Except Fault (List Drawable)) = .ok ds →
      ∀ d ∈ ds, d.group = group := by
    intro he d hd
    simp only [Except.ok.injEq] at he
    subst he
    cases hd
  unfold addObjectDrawables at h
  by_cases hc : objectData.instanceType = .Mesh ∧ objectData.instanceId ≠ -1
  · rw [if_pos hc] at h
    cases hm : arrayGetInt data.meshes_ objectData.instanceId with
    | error e => simp [hm] at h
    | ok slot =>
      cases slot with
      | none =>
        simp only [hm] at h
        exact hnil h
      | some mesh =>
        simp only [hm] at h
        by_cases hmat : objectData.material = -1
        · rw [if_pos hmat] at h
          exact hone _ h rfl
        · rw [if_neg hmat] at h
          cases hmv : arrayGetInt data.materials_ objectData.material with
          | error e => simp [hmv] at h
          | ok mslot =>
            cases mslot with
            | none =>
              simp only [hmv] at h
              exact hone _ h rfl
            | some material =>
              simp only [hmv] at h
              cases hdt : material.diffuseTexture with
              | none =>
                simp only [hdt] at h
                exact hone _ h rfl
              | some t =>
                simp only [hdt] at h
                cases htx : arrayGet data.textures_ t with
                | error e => simp [htx] at h
                | ok tslot =>
                  cases tslot with
                  | none =>
                    simp only [htx] at h
                    exact hone _ h rfl
                  | some texture =>
                    simp only [htx] at h
                    exact hone _ h rfl
  · rw [if_neg hc] at h
    exact hnil h

theorem mem_allDrawablesList {d : Drawable} {cs : List Object3D}
    (h : d ∈ Object3D.allDrawablesList cs) : ∃ c ∈ cs, d ∈ c.allDrawables := by
  induction cs with
  | nil =>
    simp [Object3D.allDrawablesList] at h
  | cons c cs ih =>
    simp only [Object3D.allDrawablesList, List.mem_append] at h
    rcases h with h | h
    · exact ⟨c, List.mem_cons_self _ _, h⟩
    · obtain ⟨c1, hc1, hd⟩ := ih h
      exact ⟨c1, List.mem_cons_of_mem _ hc1, hd⟩

theorem addEach_mem (add : Nat → Except Fault (Option Object3D)) (P : Object3D → Prop)
    (hadd : ∀ i o, add i = .ok (some o) → P o) :
    ∀ (ids : List Nat) (os : List Object3D), addEach add ids = .ok os → ∀ o ∈ os, P o := by
  intro ids
  induction ids with
  | nil =>
    intro os h o ho
    simp only [addEach, Except.ok.injEq] at h
    subst h
    cases ho
  | cons i ids ih =>
    intro os h o ho
    unfold addEach at h
    cases hi : add i with
    | error e => simp [hi] at h
    | ok r =>
      cases hrest : addEach add ids with
      | error e => simp [hi, hrest] at h
      | ok rs =>
        simp only [hi, hrest, Except.ok.injEq] at h
        subst h
        rcases List.mem_append.mp ho with ho | ho
        · cases r with
          | none => simp at ho
          | some o1 =>
            simp only [Option.toList, List.mem_singleton] at ho
            subst ho
            exact hadd i _ hi
        · exact ih rs hrest o ho

/-- Every drawable of a node `addObject` creates, and of the nodes below it, is
registered in the group passed to `addObject`. -/
theorem addObject_group (data : ImportedMesh) (group : GroupId) :
    ∀ (fuel i : Nat) (node : Object3D), addObject fuel data group i = .ok (some node) →
      ∀ d ∈ node.allDrawables, d.group = group := by
  intro fuel
  induction fuel with
  | zero =>
    intro i node h
    simp [addObject] at h
  | succ fuel ih =>
    intro i node h d hd
    unfold addObject at h
    cases hobj : arrayGet data.objects_ i with
    | error e => simp [hobj] at h
    | ok slot =>
      cases slot with
      | none => simp [hobj] at h
      | some objectData =>
        cases hds : addObjectDrawables data group objectData with
        | error e => simp [hobj, hds] at h
        | ok ds =>
          cases hcs : addEach (addObject fuel data group) objectData.children with
          | error e => simp [hobj, hds, hcs] at h
          | ok cs =>
            simp only [hobj, hds, hcs, Except.ok.injEq, Option.some.injEq] at h
            subst h
            simp only [Object3D.allDrawables, List.mem_append] at hd
            rcases hd with hd | hd
            · exact addObjectDrawables_group data group objectData ds hds d hd
            · obtain ⟨c, hc, hdc⟩ := mem_allDrawablesList hd
              exact addEach_mem (addObject fuel data group)
                (fun o => ∀ d ∈ o.allDrawables, d.group = group)
                (fun j o hj => ih j o hj) objectData.children cs hcs c hc d hdc

/-- The scene branch of `loadMesh`: the drawables it creates are all
registered in the group the caller supplied. -/
theorem populate_scene_group (fuel : Nat) (drawables_ : GroupId) (data : ImportedMesh)
    (parent parent1 : Object3D) (group : GroupId) (scene : SceneData)
    (hscene : data.scene_ = some scene)
    (h : populate fuel drawables_ data parent group = .ok parent1) :
    ∃ created, parent1.allDrawables = parent.allDrawables ++ created ∧
      ∀ d ∈ created, d.group = group := by
  unfold populate at h
  rw [hscene] at h
  simp only at h
  cases hos : addEach (addObject fuel data group) scene.children3D with
  | error e => simp [hos] at h
  | ok os =>
    simp only [hos, Except.ok.injEq] at h
    subst h
    refine ⟨Object3D.allDrawablesList os, ?_, ?_⟩
    · simp [Object3D.allDrawables, allDrawables_eq, allDrawablesList_append]
    · intro d hd
      obtain ⟨c, hc, hdc⟩ := mem_allDrawablesList hd
      exact addEach_mem (addObject fuel data group)
        (fun o => ∀ d ∈ o.allDrawables, d.group = group)
        (fun j o hj => addObject_group data group fuel j o hj) scene.children3D os hos c hc
        d hdc

/-- C12, at the input where the code departs from it: `flatFile` has a loaded
mesh 0 and no scene; `loadMesh` called with the draw group 5 by an application
whose own group `drawables_` is 1 creates one white colored drawable and
registers it in group 1, not in group 5. -/
theorem loadMesh_no_scene_registers_in_own_group :
    (guiReading flatFile).drawables_ = 1 ∧
    ((guiReading flatFile).importData "flat.stl").1.scene_ = none ∧
    ((guiReading flatFile).loadMesh 1 "flat.stl" emptyParent 5).map
        (fun r => r.1.allDrawables)
      = .ok [.ColoredDrawable ⟨⟨0, true, .Triangles⟩⟩ white 1] ∧
    ((guiReading flatFile).loadMesh 1 "flat.stl" emptyParent 5).map
        (fun r => r.1.allDrawables.map Drawable.group)
      = .ok [1] :=
  ⟨rfl, rfl, rfl, rfl⟩

end McRtc
